import Mathlib

set_option autoImplicit false
set_option maxRecDepth 100000

/-!
# docker-registry-importer: the import pass (`src/importer/import.go`)

A shallow embedding of `ImportContext.parseArchive`, `readManifest`,
`uploadBlobs`, `uploadManifests` and `DoImport`.

* Go strings are Lean `String`s, byte slices are `List UInt8`. In the path
  patterns a byte that is not valid UTF-8 behaves like any character other
  than `/`, `:` and the newline, so paths are taken as sequences of characters.
* Sizes are natural numbers (a tar entry is shorter than 2^63 bytes); log
  output is not part of the model.
* The tar stream is a list of entries; a payload can be read once, a second
  read of the same entry yields no bytes.
* `encoding/json` and the manifest types of `docker/distribution` are outside
  the repository: the syntax check and the full decoders are fields of
  `JsonLib`; the decoding of `manifest.Versioned` follows the rules of
  `json.Unmarshal` for a struct with an `int` and a `string` field.
* The registry client (`internal/registry`) is outside the repository: it is a
  state machine `Registry σ`; every call is recorded in a trace.
* A `*ManifestFile` is a record with the field `addr`, the identity of the
  pointer.
-/

namespace Importer

/-! ## Data model (import.go, lines 18-40) -/

abbrev Bytes := List UInt8

/-- The part of `schema1.Manifest` the importer reads: `FSLayers[i].BlobSum`. -/
structure Schema1 where
  FSLayers : List String
  deriving DecidableEq, Repr

/-- The part of `schema2.Manifest` the importer reads: `Layers[i].Digest` and
`Config.Digest`. -/
structure Schema2 where
  Layers : List String
  Config : String
  deriving DecidableEq, Repr

/-- Go `ManifestFile`; `addr` is the identity of the pointer to the record. -/
structure ManifestFile where
  repository : String
  name : String
  digestType : String
  digestValue : String
  tag : String
  data : Bytes
  manifestV1 : Option Schema1
  manifestV2 : Option Schema2
  addr : Nat
  deriving DecidableEq, Repr

/-- Go `BlobItem`. -/
structure BlobItem where
  uploaded : Bool
  manifests : List ManifestFile
  size : Nat
  deriving DecidableEq, Repr

/-- Go `map[string]*BlobItem`: an association list with at most one pair per key. -/
abbrev BlobMap := List (String × BlobItem)

/-- Map lookup `m[k]`; `none` is the nil pointer. -/
def BlobMap.get : BlobMap → String → Option BlobItem
  | [], _ => none
  | (k, v) :: rest, key => if k = key then some v else BlobMap.get rest key

/-- Map store `m[k] = v`, also the write through the pointer `m[k]`. -/
def BlobMap.put : BlobMap → String → BlobItem → BlobMap
  | [], key, v => [(key, v)]
  | (k, w) :: rest, key, v =>
    if k = key then (k, v) :: rest else (k, w) :: BlobMap.put rest key v

/-- Go `ImportContext` without the registry handle. -/
structure ImportContext where
  manifests : List ManifestFile
  blobs : BlobMap
  deriving DecidableEq, Repr

/-! ## The path patterns (import.go, lines 42-45)

Go's `regexp` returns the match a backtracking search finds first; the three
patterns are built from the combinators below in the order of the pattern
text. -/

/-- The class `.`: any character but the newline. -/
def dot (c : Char) : Bool := c != '\n'

/-- The class `[^/:]`. -/
def seg (c : Char) : Bool := c != '/' && c != ':'

/-- End of text, `$`. -/
def eol : List Char → Option Unit
  | [] => some ()
  | _ :: _ => none

/-- A literal followed by the rest of the pattern. -/
def lit {β : Type} : List Char → (List Char → Option β) → List Char → Option β
  | [], k, s => k s
  | _ :: _, _, [] => none
  | a :: w, k, c :: s => if a = c then lit w k s else none

/-- Greedy `(p*)` followed by the rest of the pattern: one more character is
tried first, the rest of the pattern at the current position second. -/
def greedyStar {β : Type} (p : Char → Bool) (k : List Char → Option β) :
    List Char → Option (List Char × β)
  | [] => (k []).map (fun r => ([], r))
  | c :: cs =>
    if p c then
      match greedyStar p k cs with
      | some (g, r) => some (c :: g, r)
      | none => (k (c :: cs)).map (fun r => ([], r))
    else (k (c :: cs)).map (fun r => ([], r))

/-- Greedy `(p+)` followed by the rest of the pattern. -/
def greedyPlus {β : Type} (p : Char → Bool) (k : List Char → Option β) :
    List Char → Option (List Char × β)
  | [] => none
  | c :: cs =>
    if p c then (greedyStar p k cs).map (fun gr => (c :: gr.1, gr.2)) else none

/-- The pattern `^(.+)/manifests/([^/:]+):(.+)$`: `FindStringSubmatch`, groups 1-3. -/
def regexpManifestFile (name : String) : Option (String × String × String) :=
  (greedyPlus dot (lit "/manifests/".data
      (greedyPlus seg (lit ":".data (greedyPlus dot eol)))) name.data).map
    (fun r => (String.mk r.1, String.mk r.2.1, String.mk r.2.2.1))

/-- The pattern `^(.+)/manifests/([^/:]+)$`: `FindStringSubmatch`, groups 1-2. -/
def regexpTagManifestFile (name : String) : Option (String × String) :=
  (greedyPlus dot (lit "/manifests/".data (greedyPlus seg eol)) name.data).map
    (fun r => (String.mk r.1, String.mk r.2.1))

/-- The pattern `^blob/([^/:]+):(.+)$`: `FindStringSubmatch`, groups 1-2. -/
def regxpBlobFile (name : String) : Option (String × String) :=
  (lit "blob/".data (greedyPlus seg (lit ":".data (greedyPlus dot eol))) name.data).map
    (fun r => (String.mk r.1, String.mk r.2.1))

/-! ## JSON decoding -/

/-- A JSON value. A number literal of the form `-?digits` is `int`, every other
number literal is `frac`. -/
inductive JVal where
  | null
  | bool (b : Bool)
  | int (n : Int)
  | frac
  | str (s : String)
  | arr (xs : List JVal)
  | obj (kvs : List (String × JVal))

/-- The library side of decoding: `parse` is the syntax check and scan of
`json.Unmarshal` (`none` for input that is not well-formed JSON), `schema1` and
`schema2` decode a scanned value into the two manifest structs, and
`deserialize` is `schema2.DeserializedManifest.UnmarshalJSON`. -/
structure JsonLib where
  parse : Bytes → Option JVal
  schema1 : JVal → Except String Schema1
  schema2 : JVal → Except String Schema2
  deserialize : Bytes → Except String Unit

/-- Go `manifest.Versioned`: `SchemaVersion int` (key `schemaVersion`) and
`MediaType string` (key `mediaType`). -/
structure Versioned where
  SchemaVersion : Int
  MediaType : String
  deriving DecidableEq, Repr

/-- Simple case folding on the characters that fold to an ASCII letter: the
upper-case letters, U+017F (long s) and U+212A (Kelvin sign). -/
def foldRune (c : Char) : Char :=
  if c = Char.ofNat 0x17F then 's'
  else if c = Char.ofNat 0x212A then 'k'
  else if 'A' ≤ c ∧ c ≤ 'Z' then Char.ofNat (c.toNat + 32)
  else c

/-- Case-insensitive comparison of an object key with an ASCII field name. -/
def equalFold (field key : String) : Bool :=
  field.data.map foldRune = key.data.map foldRune

/-- The object key selects the field `name`: exactly, or else up to case. -/
def keyIs (name key : String) : Bool := key = name || equalFold name key

/-- Decoder state of `json.Unmarshal`: the struct and the first type error saved. -/
structure VState where
  val : Versioned
  err : Option String

/-- Store one object member into `manifest.Versioned`: `null` leaves the field
alone, a value of the wrong kind saves a type error and decoding goes on. -/
def storeField (st : VState) (key : String) (v : JVal) : VState :=
  let fail (msg : String) : VState := { st with err := st.err.orElse (fun _ => some msg) }
  if keyIs "schemaVersion" key then
    match v with
    | JVal.null => st
    | JVal.int n =>
      if -(2 : Int) ^ 63 ≤ n ∧ n < (2 : Int) ^ 63 then
        { st with val := { st.val with SchemaVersion := n } }
      else fail "json: cannot unmarshal number into Go struct field Versioned.schemaVersion of type int"
    | _ => fail "json: cannot unmarshal value into Go struct field Versioned.schemaVersion of type int"
  else if keyIs "mediaType" key then
    match v with
    | JVal.null => st
    | JVal.str s => { st with val := { st.val with MediaType := s } }
    | _ => fail "json: cannot unmarshal value into Go struct field Versioned.mediaType of type string"
  else st

/-- Decoding of a scanned value into a zero `manifest.Versioned`. -/
def decodeVersioned : JVal → Except String Versioned
  | JVal.null => Except.ok ⟨0, ""⟩
  | JVal.obj kvs =>
    let st := kvs.foldl (fun st kv => storeField st kv.1 kv.2) ⟨⟨0, ""⟩, none⟩
    match st.err with
    | some e => Except.error e
    | none => Except.ok st.val
  | _ => Except.error "json: cannot unmarshal value into Go value of type manifest.Versioned"

/-! ## readManifest (import.go, lines 182-230) -/

/-- The loop body of lines 197-204 and 217-224: fetch or create the record of
`key` and append `item` to its owning manifests. -/
def addOwner (blobs : BlobMap) (key : String) (item : ManifestFile) : BlobMap :=
  match blobs.get key with
  | none => blobs.put key { uploaded := false, manifests := [item], size := 0 }
  | some blob => blobs.put key { blob with manifests := blob.manifests ++ [item] }

/-- The `for _, v := range ...` loops over the referenced digests. -/
def addOwners (blobs : BlobMap) (keys : List String) (item : ManifestFile) : BlobMap :=
  keys.foldl (fun b k => addOwner b k item) blobs

/-- Go `readManifest`: the result is the context and the item after the call,
or the error returned. -/
def readManifest (J : JsonLib) (ctx : ImportContext) (item : ManifestFile) :
    Except String (ImportContext × ManifestFile) :=
  match J.parse item.data with
  | none => Except.error "json: syntax error"
  | some v =>
    match decodeVersioned v with
    | Except.error e => Except.error e
    | Except.ok manifestVersion =>
      if manifestVersion.SchemaVersion = 1 then
        match J.schema1 v with
        | Except.error e => Except.error e
        | Except.ok m1 =>
          let item1 := { item with manifestV1 := some m1 }
          Except.ok ({ ctx with blobs := addOwners ctx.blobs m1.FSLayers item1 }, item1)
      else if manifestVersion.SchemaVersion = 2 then
        match J.schema2 v with
        | Except.error e => Except.error e
        | Except.ok m2 =>
          let item2 := { item with manifestV2 := some m2 }
          Except.ok
            ({ ctx with blobs := addOwners ctx.blobs (m2.Layers ++ [m2.Config]) item2 }, item2)
      else Except.ok (ctx, item)

/-! ## The tar stream -/

/-- One tar entry: the header name, the payload, and whether reading the
payload fails. -/
structure Entry where
  name : String
  data : Bytes
  readErr : Bool
  deriving DecidableEq, Repr

/-- The archive file: whether `os.OpenFile` fails, the entries `tarReader.Next`
yields, and whether `Next` ends with an error instead of `io.EOF`. -/
structure Archive where
  entries : List Entry
  openErr : Bool
  nextErr : Bool
  deriving DecidableEq, Repr

/-- The tar reader inside one entry: the bytes not yet read. -/
structure Reader where
  rest : Bytes
  fault : Bool

/-- Go `io.ReadAll(tarReader)`: the unread bytes; the entry is consumed. -/
def Reader.readAll (r : Reader) : Except String (Bytes × Reader) :=
  if r.fault then Except.error "unexpected EOF"
  else Except.ok (r.rest, { r with rest := [] })

/-- Modelled from the spec: `common.IoConsumeAll` is not among the sources; the
parse pass is to "consume and discard the entry's payload while recording its
byte length", so the call returns the number of bytes it consumed. -/
def IoConsumeAll (r : Reader) : Except String (Nat × Reader) :=
  if r.fault then Except.error "unexpected EOF"
  else Except.ok (r.rest.length, { r with rest := [] })

/-! ## parseArchive (import.go, lines 64-180) -/

/-- Lines 83-106: the tag-manifest block. A new record gets the next free
pointer identity, the number of records allocated so far. -/
def tagBlock (J : JsonLib) (hdr : String) (st : ImportContext × Reader) :
    Except String (ImportContext × Reader) :=
  match regexpTagManifestFile hdr with
  | none => Except.ok st
  | some groups =>
    match st.2.readAll with
    | Except.error e => Except.error e
    | Except.ok (data, rd) =>
      match readManifest J st.1
          { repository := groups.1, name := groups.2, digestType := "", digestValue := "",
            tag := groups.2, data := data, manifestV1 := none, manifestV2 := none,
            addr := st.1.manifests.length } with
      | Except.error e => Except.error e
      | Except.ok (ctx, item) => Except.ok ({ ctx with manifests := ctx.manifests ++ [item] }, rd)

/-- Lines 108-133: the digest-manifest block. -/
def digestBlock (J : JsonLib) (hdr : String) (st : ImportContext × Reader) :
    Except String (ImportContext × Reader) :=
  match regexpManifestFile hdr with
  | none => Except.ok st
  | some groups =>
    match st.2.readAll with
    | Except.error e => Except.error e
    | Except.ok (data, rd) =>
      match readManifest J st.1
          { repository := groups.1, name := groups.2.1 ++ ":" ++ groups.2.2,
            digestType := groups.2.1, digestValue := groups.2.2,
            tag := "", data := data, manifestV1 := none, manifestV2 := none,
            addr := st.1.manifests.length } with
      | Except.error e => Except.error e
      | Except.ok (ctx, item) => Except.ok ({ ctx with manifests := ctx.manifests ++ [item] }, rd)

/-- Lines 160-176: the blob block. -/
def blobBlock (hdr : String) (st : ImportContext × Reader) :
    Except String (ImportContext × Reader) :=
  match regxpBlobFile hdr with
  | none => Except.ok st
  | some groups =>
    let digestFull := groups.1 ++ ":" ++ groups.2
    let blob : BlobItem :=
      match st.1.blobs.get digestFull with
      | none => { uploaded := false, manifests := [], size := 0 }
      | some b => b
    match IoConsumeAll st.2 with
    | Except.error e => Except.error e
    | Except.ok (n, rd) =>
      Except.ok ({ st.1 with blobs := st.1.blobs.put digestFull { blob with size := n } }, rd)

/-- One iteration of the loop of lines 75-177 on the entry `e`. -/
def parseEntry (J : JsonLib) (ctx : ImportContext) (e : Entry) : Except String ImportContext :=
  match tagBlock J e.name (ctx, ⟨e.data, e.readErr⟩) with
  | Except.error err => Except.error err
  | Except.ok st1 =>
    match digestBlock J e.name st1 with
    | Except.error err => Except.error err
    | Except.ok st2 =>
      match blobBlock e.name st2 with
      | Except.error err => Except.error err
      | Except.ok st3 => Except.ok st3.1

/-- The loop of lines 75-177. -/
def parseLoop (J : JsonLib) (nextErr : Bool) : ImportContext → List Entry → Except String ImportContext
  | ctx, [] => if nextErr then Except.error "archive/tar: invalid tar header" else Except.ok ctx
  | ctx, e :: es =>
    match parseEntry J ctx e with
    | Except.error err => Except.error err
    | Except.ok ctx1 => parseLoop J nextErr ctx1 es

/-- Go `parseArchive`: the context it leaves, or the error returned. -/
def parseArchive (J : JsonLib) (file : Archive) : Except String ImportContext :=
  if file.openErr then Except.error "open: no such file or directory"
  else parseLoop J file.nextErr { manifests := [], blobs := [] } file.entries

/-! ## The registry and the two upload passes (import.go, lines 232-308) -/

/-- A call on the registry client, with its arguments. -/
inductive Event where
  | HasBlob (repository digest : String)
  | UploadBlob (repository digest : String) (content : Bytes) (size : Nat)
  | PutManifest (repository name : String) (manifest : Bytes)
  deriving DecidableEq, Repr

/-- The registry client as a state machine: `HasBlob` answers and moves on (its
error is dropped by the caller), `UploadBlob` and `PutManifest` return an error
(`some`) or nil (`none`). -/
structure Registry (σ : Type) where
  HasBlob : σ → String → String → Bool × σ
  UploadBlob : σ → String → String → Bytes → Nat → Option String × σ
  PutManifest : σ → String → String → Bytes → Option String × σ

/-- The registry state and the calls made so far. -/
structure Session (σ : Type) where
  state : σ
  trace : List Event

/-- How a pass ends: it returns nil, returns an error, or panics. -/
inductive Outcome where
  | ok
  | error (msg : String)
  | panic (msg : String)
  deriving DecidableEq, Repr

/-- The loop of `uploadBlobs`, lines 240-276. -/
def uploadBlobsLoop {σ : Type} (R : Registry σ) (ctx : ImportContext) (nextErr : Bool) :
    Session σ → List Entry → Session σ × Outcome
  | s, [] => (s, if nextErr then Outcome.error "archive/tar: invalid tar header" else Outcome.ok)
  | s, e :: es =>
    match regxpBlobFile e.name with
    | none => uploadBlobsLoop R ctx nextErr s es
    | some groups =>
      let digestFull := groups.1 ++ ":" ++ groups.2
      match ctx.blobs.get digestFull with
      | none => uploadBlobsLoop R ctx nextErr s es
      | some blob =>
        match blob.manifests with
        | [] => (s, Outcome.panic "runtime error: index out of range [0] with length 0")
        | manifest :: _ =>
          let d := groups.1 ++ ":" ++ groups.2
          let has := R.HasBlob s.state manifest.repository d
          let s1 : Session σ := ⟨has.2, s.trace ++ [Event.HasBlob manifest.repository d]⟩
          if has.1 then uploadBlobsLoop R ctx nextErr s1 es
          else
            let up := R.UploadBlob s1.state manifest.repository d e.data blob.size
            uploadBlobsLoop R ctx nextErr
              ⟨up.2, s1.trace ++ [Event.UploadBlob manifest.repository d e.data blob.size]⟩ es

/-- Go `uploadBlobs`. -/
def uploadBlobs {σ : Type} (R : Registry σ) (ctx : ImportContext) (s : Session σ)
    (file : Archive) : Session σ × Outcome :=
  if file.openErr then (s, Outcome.error "open: no such file or directory")
  else uploadBlobsLoop R ctx file.nextErr s file.entries

/-- The loop of `uploadManifests`, lines 282-306. -/
def uploadManifestsLoop {σ : Type} (J : JsonLib) (R : Registry σ) :
    Session σ → List ManifestFile → Session σ
  | s, [] => s
  | s, item :: rest =>
    match item.manifestV2 with
    | none => uploadManifestsLoop J R s rest
    | some _ =>
      match J.deserialize item.data with
      | Except.error _ => uploadManifestsLoop J R s rest
      | Except.ok _ =>
        let put := R.PutManifest s.state item.repository item.name item.data
        uploadManifestsLoop J R
          ⟨put.2, s.trace ++ [Event.PutManifest item.repository item.name item.data]⟩ rest

/-- Go `uploadManifests`: line 307 returns nil. -/
def uploadManifests {σ : Type} (J : JsonLib) (R : Registry σ) (ctx : ImportContext)
    (s : Session σ) : Session σ × Outcome :=
  (uploadManifestsLoop J R s ctx.manifests, Outcome.ok)

/-- How the process ends: `DoImport` returns, `log.Fatalln` exits, or a panic. -/
inductive Exit where
  | completed
  | fatal (msg : String)
  | panic (msg : String)
  deriving DecidableEq, Repr

/-- Go `DoImport` (lines 47-62) from the registry state `s0` and an empty trace. -/
def DoImport {σ : Type} (J : JsonLib) (R : Registry σ) (s0 : σ) (file : Archive) :
    Session σ × Exit :=
  match parseArchive J file with
  | Except.error e => (⟨s0, []⟩, Exit.fatal e)
  | Except.ok ctx =>
    match uploadBlobs R ctx ⟨s0, []⟩ file with
    | (s1, Outcome.error e) => (s1, Exit.fatal e)
    | (s1, Outcome.panic e) => (s1, Exit.panic e)
    | (s1, Outcome.ok) =>
      match uploadManifests J R ctx s1 with
      | (s2, Outcome.error e) => (s2, Exit.fatal e)
      | (s2, Outcome.panic e) => (s2, Exit.panic e)
      | (s2, Outcome.ok) => (s2, Exit.completed)

/-! ## Observations on the blob index -/

/-- How often the manifest with pointer identity `addr` occurs in the owning
manifests of the record under `key`; 0 when there is no record. -/
def ownerCount (blobs : BlobMap) (key : String) (addr : Nat) : Nat :=
  match blobs.get key with
  | none => 0
  | some b => b.manifests.countP (fun m => decide (m.addr = addr))

/-- The path is a manifest path: the tag pattern or the digest pattern matches. -/
def isManifestPath (name : String) : Bool :=
  (regexpTagManifestFile name).isSome || (regexpManifestFile name).isSome

/-! ## Sample inputs -/

/-- The bytes of an ASCII text. -/
def ascii (s : String) : Bytes := s.data.map (fun c => UInt8.ofNat c.toNat)

/-- The payload `{}`. -/
def payloadEmpty : Bytes := ascii "\x7b\x7d"

/-- The payload `{"schemaVersion":3}`. -/
def payloadV3 : Bytes := ascii "\x7b\"schemaVersion\":3\x7d"

/-- The payload `{"mediaType":"text/plain"}`. -/
def payloadMedia : Bytes := ascii "\x7b\"mediaType\":\"text/plain\"\x7d"

/-- A schema 1 manifest whose two layers carry the same blob sum. -/
def payloadV1 : Bytes :=
  ascii "\x7b\"schemaVersion\":1,\"fsLayers\":[\x7b\"blobSum\":\"sha256:aaa\"\x7d,\x7b\"blobSum\":\"sha256:aaa\"\x7d]\x7d"

/-- A schema 2 manifest with the layer `sha256:aaa` and the config `sha256:bbb`. -/
def payloadV2 : Bytes :=
  ascii "\x7b\"schemaVersion\":2,\"mediaType\":\"application/vnd.docker.distribution.manifest.v2+json\",\"config\":\x7b\"digest\":\"sha256:bbb\"\x7d,\"layers\":[\x7b\"digest\":\"sha256:aaa\"\x7d]\x7d"

/-- A schema 2 manifest that lists the layer `sha256:aaa` twice. -/
def payloadV2dup : Bytes :=
  ascii "\x7b\"schemaVersion\":2,\"mediaType\":\"application/vnd.docker.distribution.manifest.v2+json\",\"config\":\x7b\"digest\":\"sha256:bbb\"\x7d,\"layers\":[\x7b\"digest\":\"sha256:aaa\"\x7d,\x7b\"digest\":\"sha256:aaa\"\x7d]\x7d"

/-- The scanned value of `payloadV1`. -/
def valueV1 : JVal :=
  JVal.obj [("schemaVersion", JVal.int 1),
    ("fsLayers", JVal.arr [JVal.obj [("blobSum", JVal.str "sha256:aaa")],
                           JVal.obj [("blobSum", JVal.str "sha256:aaa")]])]

/-- The scanned value of `payloadV2`. -/
def valueV2 : JVal :=
  JVal.obj [("schemaVersion", JVal.int 2),
    ("mediaType", JVal.str "application/vnd.docker.distribution.manifest.v2+json"),
    ("config", JVal.obj [("digest", JVal.str "sha256:bbb")]),
    ("layers", JVal.arr [JVal.obj [("digest", JVal.str "sha256:aaa")]])]

/-- The scanned value of `payloadV2dup`. -/
def valueV2dup : JVal :=
  JVal.obj [("schemaVersion", JVal.int 2),
    ("mediaType", JVal.str "application/vnd.docker.distribution.manifest.v2+json"),
    ("config", JVal.obj [("digest", JVal.str "sha256:bbb")]),
    ("layers", JVal.arr [JVal.obj [("digest", JVal.str "sha256:aaa")],
                         JVal.obj [("digest", JVal.str "sha256:aaa")]])]

/-- The syntax layer on the sample payloads; every other input, the empty one
and the truncated `{` included, is rejected. -/
def sampleParse (b : Bytes) : Option JVal :=
  if b = payloadEmpty then some (JVal.obj [])
  else if b = payloadV3 then some (JVal.obj [("schemaVersion", JVal.int 3)])
  else if b = payloadMedia then some (JVal.obj [("mediaType", JVal.str "text/plain")])
  else if b = payloadV1 then some valueV1
  else if b = payloadV2 then some valueV2
  else if b = payloadV2dup then some valueV2dup
  else none

/-- The string member `key` of an object, the empty string when there is none. -/
def memberStr (key : String) : JVal → String
  | JVal.obj kvs =>
    match kvs.lookup key with
    | some (JVal.str s) => s
    | _ => ""
  | _ => ""

/-- The array member `key` of an object, empty when there is none. -/
def memberArr (key : String) : JVal → List JVal
  | JVal.obj kvs =>
    match kvs.lookup key with
    | some (JVal.arr xs) => xs
    | _ => []
  | _ => []

/-- The object member `key` of an object, `null` when there is none. -/
def memberObj (key : String) : JVal → JVal
  | JVal.obj kvs =>
    match kvs.lookup key with
    | some v => v
    | none => JVal.null
  | _ => JVal.null

/-- A JSON library for the sample payloads: the members `fsLayers[i].blobSum`,
`layers[i].digest` and `config.digest` are read off the scanned value. -/
def sampleJson : JsonLib where
  parse := sampleParse
  schema1 := fun v => Except.ok ⟨(memberArr "fsLayers" v).map (memberStr "blobSum")⟩
  schema2 := fun v =>
    Except.ok ⟨(memberArr "layers" v).map (memberStr "digest"),
      memberStr "digest" (memberObj "config" v)⟩
  deserialize := fun b =>
    match sampleParse b with
    | some _ => Except.ok ()
    | none => Except.error "unexpected end of JSON input"

/-- A registry that holds no blob and accepts every upload and manifest. -/
def emptyRegistry : Registry Unit where
  HasBlob := fun s _ _ => (false, s)
  UploadBlob := fun s _ _ _ _ => (none, s)
  PutManifest := fun s _ _ _ => (none, s)

/-- A fresh tag record with the payload `data`. -/
def sampleItem (data : Bytes) : ManifestFile :=
  { repository := "repoA", name := "latest", digestType := "", digestValue := "",
    tag := "latest", data := data, manifestV1 := none, manifestV2 := none, addr := 0 }

/-- The sample schema 1 record after `readManifest`. -/
def recordV1 : ManifestFile :=
  { sampleItem payloadV1 with manifestV1 := some ⟨["sha256:aaa", "sha256:aaa"]⟩ }

/-- The sample schema 2 record with the repeated layer after `readManifest`. -/
def recordV2dup : ManifestFile :=
  { sampleItem payloadV2dup with manifestV2 := some ⟨["sha256:aaa", "sha256:aaa"], "sha256:bbb"⟩ }

/-- The archive with the single entry `blob/sha256:ccc` (three bytes): no
manifest references the digest. -/
def orphanArchive : Archive :=
  { entries := [⟨"blob/sha256:ccc", [1, 2, 3], false⟩], openErr := false, nextErr := false }

/-- The record `m` is the one the parse loop builds for the manifest entry `e`:
it keeps the whole payload, and its repository and name are the groups of the
tag pattern or of the digest pattern on the entry's path. -/
def recordOf (e : Entry) (m : ManifestFile) : Prop :=
  m.data = e.data ∧
    ((regexpTagManifestFile e.name = some (m.repository, m.tag) ∧ m.name = m.tag ∧
        m.digestType = "" ∧ m.digestValue = "") ∨
      (regexpManifestFile e.name = some (m.repository, m.digestType, m.digestValue) ∧
        m.name = m.digestType ++ ":" ++ m.digestValue ∧ m.tag = ""))

instance (e : Entry) (m : ManifestFile) : Decidable (recordOf e m) := by
  unfold recordOf
  exact inferInstance

/-- The record is submitted by `uploadManifests`: its schema 2 form is set and
its raw bytes decode again. -/
def submitted (J : JsonLib) (m : ManifestFile) : Bool :=
  m.manifestV2.isSome &&
    (match J.deserialize m.data with
     | Except.ok _ => true
     | Except.error _ => false)

/-- The `PutManifest` call that submits the record. -/
def putCall (m : ManifestFile) : Event := Event.PutManifest m.repository m.name m.data

/-- A sample archive: a file the importer does not know, a schema 2 manifest
under a tag, the layer blob, a manifest of schema version 3 under a digest, and
the config blob. -/
def smallArchive : Archive :=
  { entries :=
      [⟨"README", [9], false⟩,
       ⟨"repoA/manifests/latest", payloadV2, false⟩,
       ⟨"blob/sha256:aaa", [1, 2, 3], false⟩,
       ⟨"repoA/manifests/sha256:ddd", payloadV3, false⟩,
       ⟨"blob/sha256:bbb", [4, 5], false⟩],
    openErr := false, nextErr := false }

/-- The record of `repoA/manifests/latest` in `smallArchive`. -/
def smallTagRecord : ManifestFile :=
  { repository := "repoA", name := "latest", digestType := "", digestValue := "",
    tag := "latest", data := payloadV2, manifestV1 := none,
    manifestV2 := some ⟨["sha256:aaa"], "sha256:bbb"⟩, addr := 0 }

/-- The record of `repoA/manifests/sha256:ddd` in `smallArchive`. -/
def smallDigestRecord : ManifestFile :=
  { repository := "repoA", name := "sha256:ddd", digestType := "sha256", digestValue := "ddd",
    tag := "", data := payloadV3, manifestV1 := none, manifestV2 := none, addr := 1 }

/-- The context `parseArchive` leaves on `smallArchive`. -/
def smallContext : ImportContext :=
  { manifests := [smallTagRecord, smallDigestRecord],
    blobs := [("sha256:aaa", ⟨false, [smallTagRecord], 3⟩),
              ("sha256:bbb", ⟨false, [smallTagRecord], 2⟩)] }

/-- An archive whose manifest entry holds the truncated payload `{`. -/
def brokenArchive : Archive :=
  { entries :=
      [⟨"blob/sha256:aaa", [1, 2, 3], false⟩,
       ⟨"repoA/manifests/latest", [123], false⟩,
       ⟨"blob/sha256:bbb", [4, 5], false⟩],
    openErr := false, nextErr := false }

/-- An archive whose only entry has a path that matches the tag pattern and
the digest pattern, with a payload of schema version 3. -/
def doubleMatchArchive : Archive :=
  { entries := [⟨"a/manifests/b:c/manifests/d", payloadV3, false⟩],
    openErr := false, nextErr := false }

/-- An archive whose only entry has a path that matches the tag pattern and
the blob pattern, with a payload of schema version 3. -/
def tagBlobArchive : Archive :=
  { entries := [⟨"blob/sha256:x/manifests/latest", payloadV3, false⟩],
    openErr := false, nextErr := false }

/-- An archive that holds the path `blob/sha256:aaa` twice, with three bytes
and with two bytes. -/
def repeatedBlobArchive : Archive :=
  { entries := [⟨"blob/sha256:aaa", [1, 2, 3], false⟩, ⟨"blob/sha256:aaa", [4, 5], false⟩],
    openErr := false, nextErr := false }

/-! ## Observations on the upload passes -/

/-- One iteration of the loop of `uploadBlobs` on the entry `e`: the session
after it, or `none` when line 258 panics. -/
def blobStep {σ : Type} (R : Registry σ) (ctx : ImportContext) (s : Session σ) (e : Entry) :
    Option (Session σ) :=
  match regxpBlobFile e.name with
  | none => some s
  | some groups =>
    match ctx.blobs.get (groups.1 ++ ":" ++ groups.2) with
    | none => some s
    | some blob =>
      match blob.manifests with
      | [] => none
      | manifest :: _ =>
        if (R.HasBlob s.state manifest.repository (groups.1 ++ ":" ++ groups.2)).1 then
          some ⟨(R.HasBlob s.state manifest.repository (groups.1 ++ ":" ++ groups.2)).2,
            s.trace ++ [Event.HasBlob manifest.repository (groups.1 ++ ":" ++ groups.2)]⟩
        else
          some ⟨(R.UploadBlob
                (R.HasBlob s.state manifest.repository (groups.1 ++ ":" ++ groups.2)).2
                manifest.repository (groups.1 ++ ":" ++ groups.2) e.data blob.size).2,
            (s.trace ++ [Event.HasBlob manifest.repository (groups.1 ++ ":" ++ groups.2)]) ++
              [Event.UploadBlob manifest.repository (groups.1 ++ ":" ++ groups.2) e.data
                blob.size]⟩

/-- The call is a blob call: `HasBlob` or `UploadBlob`. -/
def isBlobCall : Event → Bool
  | Event.HasBlob _ _ => true
  | Event.UploadBlob _ _ _ _ => true
  | Event.PutManifest _ _ _ => false

/-- The call is an `UploadBlob`. -/
def isUpload : Event → Bool
  | Event.UploadBlob _ _ _ _ => true
  | _ => false

/-- The call is a `PutManifest`. -/
def isPut : Event → Bool
  | Event.PutManifest _ _ _ => true
  | _ => false

/-- The digests a record references: the blob sums of its schema 1 form, the
layers and the config of its schema 2 form. -/
def refs (m : ManifestFile) : List String :=
  (match m.manifestV1 with
    | some m1 => m1.FSLayers
    | none => []) ++
  (match m.manifestV2 with
    | some m2 => m2.Layers ++ [m2.Config]
    | none => [])

/-- The owning manifests of the record under `key`; none when there is no record. -/
def owners (blobs : BlobMap) (key : String) : List ManifestFile :=
  match blobs.get key with
  | none => []
  | some b => b.manifests

/-- A registry that holds every blob. -/
def fullRegistry : Registry Unit where
  HasBlob := fun s _ _ => (true, s)
  UploadBlob := fun s _ _ _ _ => (none, s)
  PutManifest := fun s _ _ _ => (none, s)

/-- A registry that holds no blob and fails every upload. -/
def failingRegistry : Registry Unit where
  HasBlob := fun s _ _ => (false, s)
  UploadBlob := fun s _ _ _ _ => (some "upload failed", s)
  PutManifest := fun s _ _ _ => (none, s)

/-- The registry `R` with every `UploadBlob` reporting success; the state it
moves to is that of `R`. -/
def uploadsSucceed {σ : Type} (R : Registry σ) : Registry σ where
  HasBlob := R.HasBlob
  UploadBlob := fun st r d c n => (none, (R.UploadBlob st r d c n).2)
  PutManifest := R.PutManifest

/-- An archive with the manifest of `repoA` and its two blobs. -/
def blobsArchive : Archive :=
  { entries :=
      [⟨"repoA/manifests/latest", payloadV2, false⟩,
       ⟨"blob/sha256:aaa", [1, 2, 3], false⟩,
       ⟨"blob/sha256:bbb", [4, 5], false⟩],
    openErr := false, nextErr := false }

/-- The owning manifests the manifest list gives the digest `key`: every record,
in list order, once per reference of the record to `key`. -/
def expectedOwners (ms : List ManifestFile) (key : String) : List ManifestFile :=
  ms.flatMap (fun m => List.replicate ((refs m).count key) m)

/-- An archive in which the manifests of `repoA` and of `repoB` reference the
same two blobs. -/
def sharedArchive : Archive :=
  { entries :=
      [⟨"repoA/manifests/latest", payloadV2, false⟩,
       ⟨"repoB/manifests/latest", payloadV2, false⟩,
       ⟨"blob/sha256:aaa", [1, 2, 3], false⟩],
    openErr := false, nextErr := false }

/-- The record of `repoB/manifests/latest` in `sharedArchive`. -/
def sharedRecordB : ManifestFile :=
  { repository := "repoB", name := "latest", digestType := "", digestValue := "",
    tag := "latest", data := payloadV2, manifestV1 := none,
    manifestV2 := some ⟨["sha256:aaa"], "sha256:bbb"⟩, addr := 1 }

/-- The context `parseArchive` leaves on `sharedArchive`. -/
def sharedContext : ImportContext :=
  { manifests := [smallTagRecord, sharedRecordB],
    blobs := [("sha256:aaa", ⟨false, [smallTagRecord, sharedRecordB], 3⟩),
              ("sha256:bbb", ⟨false, [smallTagRecord, sharedRecordB], 0⟩)] }

/-- Scenario A: the tag manifest `repoA/manifests/latest` followed by the blob
entries `blob/sha256:aaa` and `blob/sha256:bbb`. -/
def scenarioA (manifest aaa bbb : Bytes) : Archive :=
  { entries :=
      [⟨"repoA/manifests/latest", manifest, false⟩,
       ⟨"blob/sha256:aaa", aaa, false⟩,
       ⟨"blob/sha256:bbb", bbb, false⟩],
    openErr := false, nextErr := false }

/-- The record of the manifest of scenario A. -/
def scenarioRecord (manifest : Bytes) : ManifestFile :=
  { repository := "repoA", name := "latest", digestType := "", digestValue := "",
    tag := "latest", data := manifest, manifestV1 := none,
    manifestV2 := some ⟨["sha256:aaa"], "sha256:bbb"⟩, addr := 0 }

/-- The context after the parse of scenario A. -/
def scenarioContext (manifest : Bytes) : ImportContext :=
  { manifests := [scenarioRecord manifest],
    blobs := [("sha256:aaa", ⟨false, [scenarioRecord manifest], 100⟩),
              ("sha256:bbb", ⟨false, [scenarioRecord manifest], 50⟩)] }

/-! ## The path patterns: what a match says about the path -/


theorem eol_some {s : List Char} {u : Unit} (h : eol s = some u) : s = [] := by
  cases s with
  | nil => rfl
  | cons c cs => simp [eol] at h

theorem lit_some {β : Type} (w : List Char) (k : List Char → Option β) (s : List Char) (r : β)
    (h : lit w k s = some r) : ∃ t, s = w ++ t ∧ k t = some r := by
  induction w generalizing s with
  | nil => exact ⟨s, rfl, by simpa [lit] using h⟩
  | cons a w ih =>
    cases s with
    | nil => simp [lit] at h
    | cons c s =>
      simp only [lit] at h
      split at h
      · rename_i hac
        obtain ⟨t, ht, hk⟩ := ih s h
        exact ⟨t, by simp [hac, ht], hk⟩
      · simp at h

theorem greedyStar_some {β : Type} (p : Char → Bool) (k : List Char → Option β) (s g : List Char)
    (r : β) (h : greedyStar p k s = some (g, r)) :
    ∃ t, s = g ++ t ∧ (∀ c ∈ g, p c = true) ∧ k t = some r := by
  induction s generalizing g with
  | nil =>
    simp only [greedyStar, Option.map_eq_some'] at h
    obtain ⟨a, ha, hg⟩ := h
    simp only [Prod.mk.injEq] at hg
    exact ⟨[], by simp [← hg.1], by simp [← hg.1], by rw [← hg.2]; exact ha⟩
  | cons c cs ih =>
    have stop : (k (c :: cs)).map (fun r => (([] : List Char), r)) = some (g, r) →
        ∃ t, c :: cs = g ++ t ∧ (∀ c ∈ g, p c = true) ∧ k t = some r := by
      intro h
      simp only [Option.map_eq_some'] at h
      obtain ⟨a, ha, hg⟩ := h
      simp only [Prod.mk.injEq] at hg
      exact ⟨c :: cs, by simp [← hg.1], by simp [← hg.1], by rw [← hg.2]; exact ha⟩
    simp only [greedyStar] at h
    split at h
    · rename_i hp
      split at h
      · rename_i g1 r1 heq
        simp only [Option.some.injEq, Prod.mk.injEq] at h
        obtain ⟨hg, hr⟩ := h
        subst hg hr
        obtain ⟨t, ht, hall, hk⟩ := ih g1 heq
        refine ⟨t, ?_, ?_, hk⟩
        · rw [ht]; rfl
        · intro x hx
          rcases List.mem_cons.mp hx with rfl | hx
          · exact hp
          · exact hall x hx
      · exact stop h
    · exact stop h

theorem greedyPlus_some {β : Type} (p : Char → Bool) (k : List Char → Option β) (s g : List Char)
    (r : β) (h : greedyPlus p k s = some (g, r)) :
    ∃ t, s = g ++ t ∧ g ≠ [] ∧ (∀ c ∈ g, p c = true) ∧ k t = some r := by
  cases s with
  | nil => simp [greedyPlus] at h
  | cons c cs =>
    simp only [greedyPlus] at h
    split at h
    · rename_i hp
      simp only [Option.map_eq_some'] at h
      obtain ⟨⟨g1, r1⟩, heq, hg⟩ := h
      simp only [Prod.mk.injEq] at hg
      obtain ⟨t, ht, hall, hk⟩ := greedyStar_some p k cs g1 r1 heq
      refine ⟨t, ?_, ?_, ?_, ?_⟩
      · rw [← hg.1, ht]; rfl
      · rw [← hg.1]; simp
      · rw [← hg.1]; intro x hx
        rcases List.mem_cons.mp hx with rfl | hx
        · exact hp
        · exact hall x hx
      · rw [← hg.2]; exact hk
    · simp at h

theorem regexpTagManifestFile_some {n repo tag : String}
    (h : regexpTagManifestFile n = some (repo, tag)) :
    n = repo ++ "/manifests/" ++ tag ∧ repo.data ≠ [] ∧ tag.data ≠ [] ∧
      (∀ c ∈ repo.data, dot c = true) ∧ (∀ c ∈ tag.data, seg c = true) := by
  simp only [regexpTagManifestFile, Option.map_eq_some'] at h
  obtain ⟨⟨g1, g2, u⟩, hm, heq⟩ := h
  simp only [Prod.mk.injEq] at heq
  obtain ⟨hrepo, htag⟩ := heq
  subst hrepo htag
  obtain ⟨t1, hn, hne1, hall1, hk1⟩ := greedyPlus_some _ _ _ _ _ hm
  obtain ⟨t2, ht1, hk2⟩ := lit_some _ _ _ _ hk1
  obtain ⟨t3, ht2, hne2, hall2, hk3⟩ := greedyPlus_some _ _ _ _ _ hk2
  have ht3 := eol_some hk3
  subst ht3
  refine ⟨?_, hne1, hne2, hall1, hall2⟩
  apply String.ext
  simp only [String.data_append]
  rw [hn, ht1, ht2]
  simp

theorem regexpManifestFile_some {n repo alg hex : String}
    (h : regexpManifestFile n = some (repo, alg, hex)) :
    n = repo ++ "/manifests/" ++ alg ++ ":" ++ hex ∧ repo.data ≠ [] ∧ alg.data ≠ [] ∧
      hex.data ≠ [] ∧ (∀ c ∈ repo.data, dot c = true) ∧ (∀ c ∈ alg.data, seg c = true) ∧
      (∀ c ∈ hex.data, dot c = true) := by
  simp only [regexpManifestFile, Option.map_eq_some'] at h
  obtain ⟨⟨g1, g2, g3, u⟩, hm, heq⟩ := h
  simp only [Prod.mk.injEq] at heq
  obtain ⟨hrepo, halg, hhex⟩ := heq
  subst hrepo halg hhex
  obtain ⟨t1, hn, hne1, hall1, hk1⟩ := greedyPlus_some _ _ _ _ _ hm
  obtain ⟨t2, ht1, hk2⟩ := lit_some _ _ _ _ hk1
  obtain ⟨t3, ht2, hne2, hall2, hk3⟩ := greedyPlus_some _ _ _ _ _ hk2
  obtain ⟨t4, ht3, hk4⟩ := lit_some _ _ _ _ hk3
  obtain ⟨t5, ht4, hne3, hall3, hk5⟩ := greedyPlus_some _ _ _ _ _ hk4
  have ht5 := eol_some hk5
  subst ht5
  refine ⟨?_, hne1, hne2, hne3, hall1, hall2, hall3⟩
  apply String.ext
  simp only [String.data_append]
  rw [hn, ht1, ht2, ht3, ht4]
  simp

theorem regxpBlobFile_some {n alg hex : String}
    (h : regxpBlobFile n = some (alg, hex)) :
    n = "blob/" ++ (alg ++ ":" ++ hex) ∧ alg.data ≠ [] ∧ hex.data ≠ [] ∧
      (∀ c ∈ alg.data, seg c = true) ∧ (∀ c ∈ hex.data, dot c = true) := by
  simp only [regxpBlobFile, Option.map_eq_some'] at h
  obtain ⟨⟨g2, g3, u⟩, hm, heq⟩ := h
  simp only [Prod.mk.injEq] at heq
  obtain ⟨halg, hhex⟩ := heq
  subst halg hhex
  obtain ⟨t2, ht1, hk2⟩ := lit_some _ _ _ _ hm
  obtain ⟨t3, ht2, hne2, hall2, hk3⟩ := greedyPlus_some _ _ _ _ _ hk2
  obtain ⟨t4, ht3, hk4⟩ := lit_some _ _ _ _ hk3
  obtain ⟨t5, ht4, hne3, hall3, hk5⟩ := greedyPlus_some _ _ _ _ _ hk4
  have ht5 := eol_some hk5
  subst ht5
  refine ⟨?_, hne2, hne3, hall2, hall3⟩
  apply String.ext
  simp only [String.data_append]
  rw [ht1, ht2, ht3, ht4]
  simp

/-! ## C1: an orphan blob entry -/

/-- C1, the code at the failing input: on the archive whose only entry is
`blob/sha256:ccc`, `parseArchive` succeeds and leaves a record for the digest
with no owning manifest; `uploadBlobs` then finds that record, so the nil test
of line 254 does not skip the entry, and `blob.manifests[0]` of line 258
panics. No registry call is made, and `DoImport` ends in the panic. -/
theorem C1_orphan_blob_panics (J : JsonLib) (σ : Type) (R : Registry σ) (s0 : σ) :
    parseArchive J orphanArchive
        = Except.ok ⟨[], [("sha256:ccc", ⟨false, [], 3⟩)]⟩ ∧
      (uploadBlobs R ⟨[], [("sha256:ccc", ⟨false, [], 3⟩)]⟩ ⟨s0, []⟩ orphanArchive).2
        = Outcome.panic "runtime error: index out of range [0] with length 0" ∧
      (uploadBlobs R ⟨[], [("sha256:ccc", ⟨false, [], 3⟩)]⟩ ⟨s0, []⟩ orphanArchive).1.trace = [] ∧
      (DoImport J R s0 orphanArchive).2
        = Exit.panic "runtime error: index out of range [0] with length 0" :=
  ⟨rfl, rfl, rfl, rfl⟩

/-! ## C5: the tag pattern and the digest pattern -/

/-- In `x ++ "/" ++ t` with no `/` in `t`, the part `t` is determined by the
whole list. -/
theorem last_segment_unique (x y t u : List Char) (ht : '/' ∉ t) (hu : '/' ∉ u)
    (h : x ++ '/' :: t = y ++ '/' :: u) : t = u := by
  induction x generalizing y with
  | nil =>
    cases y with
    | nil => simpa using h
    | cons c y =>
      simp only [List.nil_append, List.cons_append, List.cons.injEq] at h
      exact absurd (by rw [h.2]; simp) ht
  | cons a x ih =>
    cases y with
    | nil =>
      simp only [List.nil_append, List.cons_append, List.cons.injEq] at h
      exact absurd (by rw [← h.2]; simp) hu
    | cons c y =>
      simp only [List.cons_append, List.cons.injEq] at h
      exact ih y h.2

/-- A character of the class `[^/:]` is neither `/` nor `:`. -/
theorem seg_ne {c : Char} (h : seg c = true) : c ≠ '/' ∧ c ≠ ':' := by
  simpa [seg] using h

/-- C5, counterexample: the path `a/manifests/sha256:x/manifests/latest` matches
the digest pattern (repository `a`, digest `sha256:x/manifests/latest`) and the
tag pattern (repository `a/manifests/sha256:x`, tag `latest`), and the tag block
of `parseArchive` processes the entry as a tag manifest. -/
theorem C5_both_patterns_match :
    regexpManifestFile "a/manifests/sha256:x/manifests/latest"
        = some ("a", "sha256", "x/manifests/latest") ∧
      regexpTagManifestFile "a/manifests/sha256:x/manifests/latest"
        = some ("a/manifests/sha256:x", "latest") ∧
      tagBlock sampleJson "a/manifests/sha256:x/manifests/latest" (⟨[], []⟩, ⟨payloadV3, false⟩)
        = Except.ok
            (⟨[{ repository := "a/manifests/sha256:x", name := "latest", digestType := "",
                 digestValue := "", tag := "latest", data := payloadV3, manifestV1 := none,
                 manifestV2 := none, addr := 0 }], []⟩, ⟨[], false⟩) :=
  ⟨by decide, by decide, rfl⟩

/-- C5, amended: a path that matches the digest pattern with a digest value
free of `/` does not match the tag pattern, and the tag block of `parseArchive`
leaves the state as it is. -/
theorem C5_digest_path_not_tag (n repo alg hex : String)
    (hd : regexpManifestFile n = some (repo, alg, hex)) (hslash : '/' ∉ hex.data) :
    regexpTagManifestFile n = none ∧
      ∀ (J : JsonLib) (st : ImportContext × Reader), tagBlock J n st = Except.ok st := by
  have hnone : regexpTagManifestFile n = none := by
    cases htag : regexpTagManifestFile n with
    | none => rfl
    | some r =>
      exfalso
      obtain ⟨repo2, tag⟩ := r
      obtain ⟨hn1, _, _, _, hsegt⟩ := regexpTagManifestFile_some htag
      obtain ⟨hn2, _, _, _, _, hsega, _⟩ := regexpManifestFile_some hd
      have e1 : n.data = (repo2.data ++ "/manifests".data) ++ '/' :: tag.data := by
        rw [hn1]; simp [String.data_append]
      have e2 : n.data = (repo.data ++ "/manifests".data) ++ '/' :: (alg.data ++ ':' :: hex.data) := by
        rw [hn2]; simp [String.data_append]
      have h1 : '/' ∉ tag.data := fun hc => (seg_ne (hsegt _ hc)).1 rfl
      have h2 : '/' ∉ alg.data ++ ':' :: hex.data := by
        intro hc
        rcases List.mem_append.mp hc with hc | hc
        · exact (seg_ne (hsega _ hc)).1 rfl
        · rcases List.mem_cons.mp hc with hc | hc
          · exact absurd hc (by decide)
          · exact hslash hc
      have heq := last_segment_unique _ _ _ _ h1 h2 (e1.symm.trans e2)
      have hcolon : ':' ∈ tag.data := by rw [heq]; simp
      exact (seg_ne (hsegt _ hcolon)).2 rfl
  refine ⟨hnone, ?_⟩
  intro J st
  simp [tagBlock, hnone]

/-- C5, the amended claim at the path `repoA/manifests/sha256:abc`. -/
theorem C5_digest_path_not_tag_witness :
    regexpTagManifestFile "repoA/manifests/sha256:abc" = none ∧
      ∀ (J : JsonLib) (st : ImportContext × Reader),
        tagBlock J "repoA/manifests/sha256:abc" st = Except.ok st :=
  C5_digest_path_not_tag "repoA/manifests/sha256:abc" "repoA" "sha256" "abc" (by decide) (by decide)

/-! ## The blob index: lookup after a store -/

theorem BlobMap.get_put_self (m : BlobMap) (k : String) (v : BlobItem) :
    (m.put k v).get k = some v := by
  induction m with
  | nil => simp [BlobMap.put, BlobMap.get]
  | cons kv rest ih =>
    obtain ⟨k1, w⟩ := kv
    by_cases h : k1 = k
    · simp [BlobMap.put, BlobMap.get, h]
    · simp [BlobMap.put, BlobMap.get, h, ih]

theorem BlobMap.get_put_of_ne (m : BlobMap) (k k' : String) (v : BlobItem) (h : k' ≠ k) :
    (m.put k v).get k' = m.get k' := by
  induction m with
  | nil => simp [BlobMap.put, BlobMap.get, Ne.symm h]
  | cons kv rest ih =>
    obtain ⟨k1, w⟩ := kv
    by_cases h1 : k1 = k
    · subst h1
      simp [BlobMap.put, BlobMap.get, Ne.symm h]
    · by_cases h2 : k1 = k'
      · subst h2
        simp [BlobMap.put, BlobMap.get, h]
      · simp [BlobMap.put, BlobMap.get, h1, h2, ih]

/-- The record under `key` after `addOwner`: the old record, or a fresh one,
with `item` appended to the owning manifests. -/
theorem addOwner_get_self (blobs : BlobMap) (key : String) (item : ManifestFile) :
    ∃ b, (addOwner blobs key item).get key = some b ∧
      b.manifests = (match blobs.get key with
        | none => []
        | some old => old.manifests) ++ [item] ∧
      b.size = (match blobs.get key with
        | none => 0
        | some old => old.size) := by
  unfold addOwner
  cases h : blobs.get key with
  | none => exact ⟨_, BlobMap.get_put_self _ _ _, by simp, by simp⟩
  | some old => exact ⟨_, BlobMap.get_put_self _ _ _, by simp, by simp⟩

theorem addOwner_get_of_ne (blobs : BlobMap) (key k : String) (item : ManifestFile)
    (h : k ≠ key) : (addOwner blobs key item).get k = blobs.get k := by
  unfold addOwner
  cases blobs.get key with
  | none => exact BlobMap.get_put_of_ne _ _ _ _ h
  | some old => exact BlobMap.get_put_of_ne _ _ _ _ h

/-- One `addOwner` raises the count of `item` under `key` by one and no other count. -/
theorem ownerCount_addOwner (blobs : BlobMap) (key d : String) (item : ManifestFile) (a : Nat) :
    ownerCount (addOwner blobs key item) d a
      = ownerCount blobs d a + (if d = key ∧ item.addr = a then 1 else 0) := by
  by_cases hd : d = key
  · subst hd
    obtain ⟨b, hb, hm, _⟩ := addOwner_get_self blobs d item
    unfold ownerCount
    rw [hb]
    cases h : blobs.get d with
    | none =>
      rw [h] at hm
      by_cases ha : item.addr = a <;> simp [hm, ha, List.countP_cons]
    | some old =>
      rw [h] at hm
      by_cases ha : item.addr = a <;> simp [hm, ha, List.countP_append, List.countP_cons]
  · unfold ownerCount
    rw [addOwner_get_of_ne _ _ _ _ hd]
    simp [hd]

/-- The loop over the referenced digests raises the count of `item` under `d`
by the number of occurrences of `d` among them. -/
theorem ownerCount_addOwners (keys : List String) (blobs : BlobMap) (d : String)
    (item : ManifestFile) :
    ownerCount (addOwners blobs keys item) d item.addr
      = ownerCount blobs d item.addr + keys.count d := by
  induction keys generalizing blobs with
  | nil => simp [addOwners]
  | cons k keys ih =>
    have step : addOwners blobs (k :: keys) item = addOwners (addOwner blobs k item) keys item := rfl
    rw [step, ih, ownerCount_addOwner, List.count_cons]
    by_cases hk : d = k
    · subst hk; simp; omega
    · have hk2 : ¬ (k = d) := fun h => hk h.symm
      simp [hk, hk2]

/-- A record, once there, stays through `addOwner`, with its size. -/
theorem addOwner_keeps (blobs : BlobMap) (key k : String) (item : ManifestFile) (b : BlobItem)
    (h : blobs.get k = some b) :
    ∃ b', (addOwner blobs key item).get k = some b' ∧ b'.size = b.size := by
  by_cases hk : k = key
  · subst hk
    obtain ⟨b', hb', _, hs⟩ := addOwner_get_self blobs k item
    rw [h] at hs
    exact ⟨b', hb', hs⟩
  · exact ⟨b, by rw [addOwner_get_of_ne _ _ _ _ hk]; exact h, rfl⟩

theorem addOwners_keeps (keys : List String) (blobs : BlobMap) (k : String) (item : ManifestFile)
    (b : BlobItem) (h : blobs.get k = some b) :
    ∃ b', (addOwners blobs keys item).get k = some b' ∧ b'.size = b.size := by
  induction keys generalizing blobs b with
  | nil => exact ⟨b, h, rfl⟩
  | cons key keys ih =>
    obtain ⟨b1, hb1, hs1⟩ := addOwner_keeps blobs key k item b h
    obtain ⟨b2, hb2, hs2⟩ := ih (addOwner blobs key item) b1 hb1
    exact ⟨b2, hb2, hs2.trans hs1⟩

/-- Every digest of the loop has a record afterwards. -/
theorem addOwners_get_isSome (keys : List String) (blobs : BlobMap) (d : String)
    (item : ManifestFile) (hd : d ∈ keys) : ((addOwners blobs keys item).get d).isSome = true := by
  induction keys generalizing blobs with
  | nil => simp at hd
  | cons key keys ih =>
    have step : addOwners blobs (key :: keys) item = addOwners (addOwner blobs key item) keys item := rfl
    rw [step]
    by_cases hk : d ∈ keys
    · exact ih _ hk
    · have hdk : d = key := by
        rcases List.mem_cons.mp hd with h | h
        · exact h
        · exact absurd h hk
      subst hdk
      obtain ⟨b, hb, _, _⟩ := addOwner_get_self blobs d item
      obtain ⟨b', hb', _⟩ := addOwners_keeps keys _ d item b hb
      rw [hb']; rfl

/-! ## C2 and C3: the owning manifests after readManifest -/

/-- C2, counterexample: a schema 1 manifest whose two `fsLayers` entries carry
the blob sum `sha256:aaa`; after `readManifest` the record of `sha256:aaa` holds
the manifest twice, not once. -/
theorem C2_repeated_blobsum_counted_twice :
    readManifest sampleJson ⟨[], []⟩ (sampleItem payloadV1)
        = Except.ok (⟨[], [("sha256:aaa", ⟨false, [recordV1, recordV1], 0⟩)]⟩, recordV1) ∧
      recordV1.manifestV1 = some ⟨["sha256:aaa", "sha256:aaa"]⟩ ∧
      ownerCount [("sha256:aaa", ⟨false, [recordV1, recordV1], 0⟩)] "sha256:aaa" recordV1.addr = 2 :=
  ⟨rfl, rfl, rfl⟩

/-- C2, amended: for a schema 1 manifest on which `readManifest` succeeds, every
digest of `fsLayers` has a record afterwards, and the number of occurrences of
this manifest in the owning manifests of any digest grows by the number of
layer entries that carry that digest. -/
theorem C2_v1_owner_count (J : JsonLib) (ctx ctx1 : ImportContext) (item item1 : ManifestFile)
    (v : JVal) (ver : Versioned)
    (hparse : J.parse item.data = some v) (hver : decodeVersioned v = Except.ok ver)
    (hone : ver.SchemaVersion = 1)
    (hread : readManifest J ctx item = Except.ok (ctx1, item1)) :
    ∃ m1, J.schema1 v = Except.ok m1 ∧ item1 = { item with manifestV1 := some m1 } ∧
      ctx1.manifests = ctx.manifests ∧
      ∀ d, (d ∈ m1.FSLayers → (ctx1.blobs.get d).isSome = true) ∧
        ownerCount ctx1.blobs d item.addr
          = ownerCount ctx.blobs d item.addr + m1.FSLayers.count d := by
  simp only [readManifest, hparse, hver, hone, if_true] at hread
  cases hs : J.schema1 v with
  | error e => rw [hs] at hread; simp at hread
  | ok m1 =>
    rw [hs] at hread
    simp only [Except.ok.injEq, Prod.mk.injEq] at hread
    obtain ⟨hc, hi⟩ := hread
    subst hc hi
    refine ⟨m1, rfl, rfl, rfl, ?_⟩
    intro d
    exact ⟨fun hd => addOwners_get_isSome _ _ _ _ hd,
      ownerCount_addOwners m1.FSLayers ctx.blobs d { item with manifestV1 := some m1 }⟩

/-- C2, the amended claim at the sample schema 1 manifest and the empty index. -/
theorem C2_v1_owner_count_witness :
    ∃ m1, sampleJson.schema1 valueV1 = Except.ok m1 ∧
      recordV1 = { sampleItem payloadV1 with manifestV1 := some m1 } ∧
      (⟨[], [("sha256:aaa", ⟨false, [recordV1, recordV1], 0⟩)]⟩ : ImportContext).manifests = [] ∧
      ∀ d, (d ∈ m1.FSLayers →
          (BlobMap.get [("sha256:aaa", ⟨false, [recordV1, recordV1], 0⟩)] d).isSome = true) ∧
        ownerCount [("sha256:aaa", ⟨false, [recordV1, recordV1], 0⟩)] d (sampleItem payloadV1).addr
          = ownerCount [] d (sampleItem payloadV1).addr + m1.FSLayers.count d :=
  C2_v1_owner_count sampleJson ⟨[], []⟩ _ (sampleItem payloadV1) _ valueV1 ⟨1, ""⟩ rfl rfl rfl rfl

/-- C3, counterexample: a schema 2 manifest with N = 2 layers, both with the
digest `sha256:aaa`, and the config `sha256:bbb`; after `readManifest` the
record of `sha256:aaa` holds the manifest twice, not once. -/
theorem C3_repeated_layer_counted_twice :
    readManifest sampleJson ⟨[], []⟩ (sampleItem payloadV2dup)
        = Except.ok (⟨[], [("sha256:aaa", ⟨false, [recordV2dup, recordV2dup], 0⟩),
                           ("sha256:bbb", ⟨false, [recordV2dup], 0⟩)]⟩, recordV2dup) ∧
      recordV2dup.manifestV2 = some ⟨["sha256:aaa", "sha256:aaa"], "sha256:bbb"⟩ ∧
      ownerCount [("sha256:aaa", ⟨false, [recordV2dup, recordV2dup], 0⟩),
                  ("sha256:bbb", ⟨false, [recordV2dup], 0⟩)] "sha256:aaa" recordV2dup.addr = 2 :=
  ⟨rfl, rfl, rfl⟩

/-- C3, amended: for a schema 2 manifest on which `readManifest` succeeds, each
of the N layer digests and the config digest has a record afterwards, and the
number of occurrences of this manifest in the owning manifests of any digest
grows by the number of times the digest occurs among the N + 1 references; it
grows by exactly one for a digest that occurs once among them. -/
theorem C3_v2_owner_count (J : JsonLib) (ctx ctx1 : ImportContext) (item item1 : ManifestFile)
    (v : JVal) (ver : Versioned)
    (hparse : J.parse item.data = some v) (hver : decodeVersioned v = Except.ok ver)
    (htwo : ver.SchemaVersion = 2)
    (hread : readManifest J ctx item = Except.ok (ctx1, item1)) :
    ∃ m2, J.schema2 v = Except.ok m2 ∧ item1 = { item with manifestV2 := some m2 } ∧
      ctx1.manifests = ctx.manifests ∧
      ∀ d, (d ∈ m2.Layers ++ [m2.Config] → (ctx1.blobs.get d).isSome = true) ∧
        ownerCount ctx1.blobs d item.addr
          = ownerCount ctx.blobs d item.addr + (m2.Layers ++ [m2.Config]).count d ∧
        ((m2.Layers ++ [m2.Config]).count d = 1 →
          ownerCount ctx1.blobs d item.addr = ownerCount ctx.blobs d item.addr + 1) := by
  have hne : ¬ ((2 : Int) = 1) := by decide
  simp only [readManifest, hparse, hver, htwo, hne, if_true, if_false] at hread
  cases hs : J.schema2 v with
  | error e => rw [hs] at hread; simp at hread
  | ok m2 =>
    rw [hs] at hread
    simp only [Except.ok.injEq, Prod.mk.injEq] at hread
    obtain ⟨hc, hi⟩ := hread
    subst hc hi
    refine ⟨m2, rfl, rfl, rfl, ?_⟩
    intro d
    have hcount := ownerCount_addOwners (m2.Layers ++ [m2.Config]) ctx.blobs d
      { item with manifestV2 := some m2 }
    exact ⟨fun hd => addOwners_get_isSome _ _ _ _ hd, hcount, fun h1 => by rw [hcount, h1]⟩

/-- C3, the amended claim at the sample schema 2 manifest with the repeated
layer and the empty index. -/
theorem C3_v2_owner_count_witness :
    ∃ m2, sampleJson.schema2 valueV2dup = Except.ok m2 ∧
      recordV2dup = { sampleItem payloadV2dup with manifestV2 := some m2 } ∧
      (⟨[], [("sha256:aaa", ⟨false, [recordV2dup, recordV2dup], 0⟩),
             ("sha256:bbb", ⟨false, [recordV2dup], 0⟩)]⟩ : ImportContext).manifests = [] ∧
      ∀ d, (d ∈ m2.Layers ++ [m2.Config] →
          (BlobMap.get [("sha256:aaa", ⟨false, [recordV2dup, recordV2dup], 0⟩),
             ("sha256:bbb", ⟨false, [recordV2dup], 0⟩)] d).isSome = true) ∧
        ownerCount [("sha256:aaa", ⟨false, [recordV2dup, recordV2dup], 0⟩),
             ("sha256:bbb", ⟨false, [recordV2dup], 0⟩)] d (sampleItem payloadV2dup).addr
          = ownerCount [] d (sampleItem payloadV2dup).addr + (m2.Layers ++ [m2.Config]).count d ∧
        ((m2.Layers ++ [m2.Config]).count d = 1 →
          ownerCount [("sha256:aaa", ⟨false, [recordV2dup, recordV2dup], 0⟩),
             ("sha256:bbb", ⟨false, [recordV2dup], 0⟩)] d (sampleItem payloadV2dup).addr
            = ownerCount [] d (sampleItem payloadV2dup).addr + 1) :=
  C3_v2_owner_count sampleJson ⟨[], []⟩ _ (sampleItem payloadV2dup) _ valueV2dup ⟨2, "application/vnd.docker.distribution.manifest.v2+json"⟩
    rfl rfl rfl rfl

/-! ## C6: payloads readManifest rejects and accepts -/

/-- A member that selects neither field, or selects `mediaType` with a string
or `null`, leaves the schema version and the saved error as they are. -/
theorem storeField_keeps (st : VState) (key : String) (val : JVal)
    (hk : keyIs "schemaVersion" key = false)
    (hm : keyIs "mediaType" key = true → val = JVal.null ∨ ∃ s, val = JVal.str s) :
    (storeField st key val).err = st.err ∧
      (storeField st key val).val.SchemaVersion = st.val.SchemaVersion := by
  unfold storeField
  simp only [hk]
  by_cases hmt : keyIs "mediaType" key = true
  · rcases hm hmt with h | ⟨s, h⟩
    · subst h; simp [hmt]
    · subst h; simp [hmt]
  · simp [hmt]

theorem foldl_storeField_keeps (kvs : List (String × JVal)) (st : VState)
    (h : ∀ kv ∈ kvs, keyIs "schemaVersion" kv.1 = false ∧
      (keyIs "mediaType" kv.1 = true → kv.2 = JVal.null ∨ ∃ s, kv.2 = JVal.str s)) :
    (kvs.foldl (fun st kv => storeField st kv.1 kv.2) st).err = st.err ∧
      (kvs.foldl (fun st kv => storeField st kv.1 kv.2) st).val.SchemaVersion
        = st.val.SchemaVersion := by
  induction kvs generalizing st with
  | nil => exact ⟨rfl, rfl⟩
  | cons kv kvs ih =>
    have hkv := h kv (List.mem_cons_self _ _)
    have hstep := storeField_keeps st kv.1 kv.2 hkv.1 hkv.2
    have hrest := ih (storeField st kv.1 kv.2) (fun x hx => h x (List.mem_cons_of_mem _ hx))
    simp only [List.foldl_cons]
    exact ⟨hrest.1.trans hstep.1, hrest.2.trans hstep.2⟩

/-- An object without a `schemaVersion` member decodes to schema version 0. -/
theorem decodeVersioned_no_version (kvs : List (String × JVal))
    (h : ∀ kv ∈ kvs, keyIs "schemaVersion" kv.1 = false ∧
      (keyIs "mediaType" kv.1 = true → kv.2 = JVal.null ∨ ∃ s, kv.2 = JVal.str s)) :
    ∃ ver, decodeVersioned (JVal.obj kvs) = Except.ok ver ∧ ver.SchemaVersion = 0 := by
  obtain ⟨herr, hval⟩ := foldl_storeField_keeps kvs ⟨⟨0, ""⟩, none⟩ h
  simp only [decodeVersioned]
  simp only at herr
  rw [herr]
  exact ⟨_, rfl, hval⟩

/-- With a schema version other than 1 and 2, `readManifest` returns nil and
changes neither the context nor the record. -/
theorem readManifest_other_version (J : JsonLib) (ctx : ImportContext) (item : ManifestFile)
    (v : JVal) (ver : Versioned)
    (hparse : J.parse item.data = some v) (hver : decodeVersioned v = Except.ok ver)
    (h1 : ver.SchemaVersion ≠ 1) (h2 : ver.SchemaVersion ≠ 2) :
    readManifest J ctx item = Except.ok (ctx, item) := by
  simp [readManifest, hparse, hver, h1, h2]

/-- A payload that is not well-formed JSON makes `readManifest` return an error. -/
theorem readManifest_malformed (J : JsonLib) (ctx : ImportContext) (item : ManifestFile)
    (hparse : J.parse item.data = none) :
    readManifest J ctx item = Except.error "json: syntax error" := by
  simp [readManifest, hparse]

/-- C6, counterexample: the payload `{}` is well-formed JSON, an object with no
member at all and so with no `schemaVersion` field, and `readManifest` returns
nil on it. -/
theorem C6_empty_object_accepted :
    sampleJson.parse (sampleItem payloadEmpty).data = some (JVal.obj []) ∧
      (∀ kv ∈ ([] : List (String × JVal)), keyIs "schemaVersion" kv.1 = false) ∧
      readManifest sampleJson ⟨[], []⟩ (sampleItem payloadEmpty)
        = Except.ok (⟨[], []⟩, sampleItem payloadEmpty) :=
  ⟨rfl, by simp, rfl⟩

/-- C6, amended: `readManifest` returns an error for every payload that is not
well-formed JSON; for a well-formed JSON object without a `schemaVersion` member
(whose `mediaType` member, if any, is a string or `null`) it returns nil and
leaves the record and the blob index as they are. -/
theorem C6_malformed_rejected_missing_version_accepted (J : JsonLib) (ctx : ImportContext)
    (item : ManifestFile) :
    (J.parse item.data = none → ∃ e, readManifest J ctx item = Except.error e) ∧
      (∀ kvs, J.parse item.data = some (JVal.obj kvs) →
        (∀ kv ∈ kvs, keyIs "schemaVersion" kv.1 = false ∧
          (keyIs "mediaType" kv.1 = true → kv.2 = JVal.null ∨ ∃ s, kv.2 = JVal.str s)) →
        readManifest J ctx item = Except.ok (ctx, item)) := by
  refine ⟨fun h => ⟨_, readManifest_malformed J ctx item h⟩, ?_⟩
  intro kvs hparse hkeys
  obtain ⟨ver, hver, hzero⟩ := decodeVersioned_no_version kvs hkeys
  exact readManifest_other_version J ctx item _ ver hparse hver
    (by rw [hzero]; decide) (by rw [hzero]; decide)

/-- C6, the amended claim at the empty payload (rejected) and at the payload
`{"mediaType":"text/plain"}` (accepted). -/
theorem C6_malformed_rejected_missing_version_accepted_witness :
    (∃ e, readManifest sampleJson ⟨[], []⟩ (sampleItem []) = Except.error e) ∧
      readManifest sampleJson ⟨[], []⟩ (sampleItem payloadMedia)
        = Except.ok (⟨[], []⟩, sampleItem payloadMedia) :=
  ⟨(C6_malformed_rejected_missing_version_accepted sampleJson ⟨[], []⟩ (sampleItem [])).1 rfl,
   (C6_malformed_rejected_missing_version_accepted sampleJson ⟨[], []⟩
      (sampleItem payloadMedia)).2 [("mediaType", JVal.str "text/plain")] rfl
      (by
        intro kv hkv
        simp only [List.mem_singleton] at hkv
        subst hkv
        exact ⟨by decide, fun _ => Or.inr ⟨"text/plain", rfl⟩⟩)⟩

/-! ## readManifest and the three blocks of the parse loop -/

/-- What a successful `readManifest` leaves alone: the manifest list, the
header fields and payload of the record, and every blob record's presence and
size; the payload was well-formed JSON. -/
theorem readManifest_ok {J : JsonLib} {ctx ctx1 : ImportContext} {item item1 : ManifestFile}
    (h : readManifest J ctx item = Except.ok (ctx1, item1)) :
    ctx1.manifests = ctx.manifests ∧ item1.repository = item.repository ∧
      item1.name = item.name ∧ item1.tag = item.tag ∧ item1.digestType = item.digestType ∧
      item1.digestValue = item.digestValue ∧ item1.data = item.data ∧ item1.addr = item.addr ∧
      (J.parse item.data).isSome = true ∧
      ∀ k b, ctx.blobs.get k = some b → ∃ b', ctx1.blobs.get k = some b' ∧ b'.size = b.size := by
  unfold readManifest at h
  cases hp : J.parse item.data with
  | none => rw [hp] at h; simp at h
  | some v =>
    rw [hp] at h
    simp only at h
    cases hv : decodeVersioned v with
    | error e => rw [hv] at h; simp at h
    | ok ver =>
      rw [hv] at h
      simp only at h
      split at h
      · cases hs : J.schema1 v with
        | error e => rw [hs] at h; simp at h
        | ok m1 =>
          rw [hs] at h
          simp only [Except.ok.injEq, Prod.mk.injEq] at h
          obtain ⟨hc, hi⟩ := h
          subst hc hi
          exact ⟨rfl, rfl, rfl, rfl, rfl, rfl, rfl, rfl, rfl,
            fun k b hb => addOwners_keeps _ _ _ _ b hb⟩
      · split at h
        · cases hs : J.schema2 v with
          | error e => rw [hs] at h; simp at h
          | ok m2 =>
            rw [hs] at h
            simp only [Except.ok.injEq, Prod.mk.injEq] at h
            obtain ⟨hc, hi⟩ := h
            subst hc hi
            exact ⟨rfl, rfl, rfl, rfl, rfl, rfl, rfl, rfl, rfl,
              fun k b hb => addOwners_keeps _ _ _ _ b hb⟩
        · simp only [Except.ok.injEq, Prod.mk.injEq] at h
          obtain ⟨hc, hi⟩ := h
          subst hc hi
          exact ⟨rfl, rfl, rfl, rfl, rfl, rfl, rfl, rfl, rfl, fun k b hb => ⟨b, hb, rfl⟩⟩

/-- A successful tag block: the pattern did not match and nothing changed, or
the payload was read whole, `readManifest` succeeded on the new record and the
record was appended. -/
theorem tagBlock_ok {J : JsonLib} {hdr : String} {st st1 : ImportContext × Reader}
    (h : tagBlock J hdr st = Except.ok st1) :
    (regexpTagManifestFile hdr = none ∧ st1 = st) ∨
      ∃ repo tag ctx1 item1, regexpTagManifestFile hdr = some (repo, tag) ∧ st.2.fault = false ∧
        readManifest J st.1
          { repository := repo, name := tag, digestType := "", digestValue := "", tag := tag,
            data := st.2.rest, manifestV1 := none, manifestV2 := none,
            addr := st.1.manifests.length } = Except.ok (ctx1, item1) ∧
        st1 = ({ ctx1 with manifests := ctx1.manifests ++ [item1] }, ⟨[], false⟩) := by
  unfold tagBlock at h
  cases hm : regexpTagManifestFile hdr with
  | none =>
    rw [hm] at h
    simp only [Except.ok.injEq] at h
    exact Or.inl ⟨rfl, h.symm⟩
  | some groups =>
    rw [hm] at h
    simp only [Reader.readAll] at h
    by_cases hf : st.2.fault = true
    · simp [hf] at h
    · have hf2 : st.2.fault = false := by simpa using hf
      simp only [hf2, Bool.false_eq_true, if_false] at h
      split at h
      · simp at h
      · rename_i ctx1 item1 hr
        simp only [Except.ok.injEq] at h
        exact Or.inr ⟨groups.1, groups.2, ctx1, item1, rfl, hf2, hr, h.symm⟩

/-- A successful digest block, as for the tag block. -/
theorem digestBlock_ok {J : JsonLib} {hdr : String} {st st1 : ImportContext × Reader}
    (h : digestBlock J hdr st = Except.ok st1) :
    (regexpManifestFile hdr = none ∧ st1 = st) ∨
      ∃ repo alg hex ctx1 item1, regexpManifestFile hdr = some (repo, alg, hex) ∧
        st.2.fault = false ∧
        readManifest J st.1
          { repository := repo, name := alg ++ ":" ++ hex, digestType := alg, digestValue := hex,
            tag := "", data := st.2.rest, manifestV1 := none, manifestV2 := none,
            addr := st.1.manifests.length } = Except.ok (ctx1, item1) ∧
        st1 = ({ ctx1 with manifests := ctx1.manifests ++ [item1] }, ⟨[], false⟩) := by
  unfold digestBlock at h
  cases hm : regexpManifestFile hdr with
  | none =>
    rw [hm] at h
    simp only [Except.ok.injEq] at h
    exact Or.inl ⟨rfl, h.symm⟩
  | some groups =>
    rw [hm] at h
    simp only [Reader.readAll] at h
    by_cases hf : st.2.fault = true
    · simp [hf] at h
    · have hf2 : st.2.fault = false := by simpa using hf
      simp only [hf2, Bool.false_eq_true, if_false] at h
      split at h
      · simp at h
      · rename_i ctx1 item1 hr
        simp only [Except.ok.injEq] at h
        exact Or.inr ⟨groups.1, groups.2.1, groups.2.2, ctx1, item1, rfl, hf2, hr, h.symm⟩

/-- A successful blob block: the pattern did not match and nothing changed, or
the record under the digest now carries the number of unread payload bytes. -/
theorem blobBlock_ok {hdr : String} {st st1 : ImportContext × Reader}
    (h : blobBlock hdr st = Except.ok st1) :
    (regxpBlobFile hdr = none ∧ st1 = st) ∨
      ∃ alg hex b, regxpBlobFile hdr = some (alg, hex) ∧ st.2.fault = false ∧
        b.size = st.2.rest.length ∧
        st1 = ({ st.1 with blobs := st.1.blobs.put (alg ++ ":" ++ hex) b }, ⟨[], false⟩) := by
  unfold blobBlock at h
  cases hm : regxpBlobFile hdr with
  | none =>
    rw [hm] at h
    simp only [Except.ok.injEq] at h
    exact Or.inl ⟨rfl, h.symm⟩
  | some groups =>
    rw [hm] at h
    simp only [IoConsumeAll] at h
    by_cases hf : st.2.fault = true
    · simp [hf] at h
    · have hf2 : st.2.fault = false := by simpa using hf
      simp only [hf2, Bool.false_eq_true, if_false, Except.ok.injEq] at h
      exact Or.inr ⟨groups.1, groups.2, _, rfl, hf2, rfl, h.symm⟩

/-! ## One iteration of the parse loop -/

/-- The three blocks of a successful iteration, in order. -/
theorem parseEntry_ok {J : JsonLib} {ctx ctx1 : ImportContext} {e : Entry}
    (h : parseEntry J ctx e = Except.ok ctx1) :
    ∃ st1 st2 st3, tagBlock J e.name (ctx, ⟨e.data, e.readErr⟩) = Except.ok st1 ∧
      digestBlock J e.name st1 = Except.ok st2 ∧ blobBlock e.name st2 = Except.ok st3 ∧
      ctx1 = st3.1 := by
  unfold parseEntry at h
  cases h1 : tagBlock J e.name (ctx, ⟨e.data, e.readErr⟩) with
  | error err => rw [h1] at h; simp at h
  | ok st1 =>
    rw [h1] at h
    simp only at h
    cases h2 : digestBlock J e.name st1 with
    | error err => rw [h2] at h; simp at h
    | ok st2 =>
      rw [h2] at h
      simp only at h
      cases h3 : blobBlock e.name st2 with
      | error err => rw [h3] at h; simp at h
      | ok st3 =>
        rw [h3] at h
        simp only [Except.ok.injEq] at h
        exact ⟨st1, st2, st3, rfl, h2, h3, h.symm⟩

/-- The blob block leaves the manifest list alone. -/
theorem blobBlock_manifests {hdr : String} {st st1 : ImportContext × Reader}
    (h : blobBlock hdr st = Except.ok st1) : st1.1.manifests = st.1.manifests := by
  rcases blobBlock_ok h with ⟨_, rfl⟩ | ⟨alg, hex, b, _, _, _, rfl⟩ <;> rfl

/-- The records a successful iteration appends: one for the entry when its
path is a manifest path, none otherwise. -/
theorem parseEntry_records {J : JsonLib} (hnil : J.parse [] = none) {ctx ctx1 : ImportContext}
    {e : Entry} (h : parseEntry J ctx e = Except.ok ctx1) :
    ∃ ms, ctx1.manifests = ctx.manifests ++ ms ∧
      List.Forall₂ recordOf (if isManifestPath e.name then [e] else []) ms := by
  obtain ⟨st1, st2, st3, h1, h2, h3, rfl⟩ := parseEntry_ok h
  rw [blobBlock_manifests h3]
  rcases tagBlock_ok h1 with ⟨ht, rfl⟩ | ⟨repo, tag, c1, i1, ht, hf, hr, rfl⟩
  · rcases digestBlock_ok h2 with ⟨hd, rfl⟩ | ⟨repo, alg, hex, c2, i2, hd, _, hr, rfl⟩
    · exact ⟨[], by simp, by simp [isManifestPath, ht, hd]⟩
    · obtain ⟨hm, hrepo, hname, htag, hdt, hdv, hdata, _, _, _⟩ := readManifest_ok hr
      refine ⟨[i2], by simp [hm], ?_⟩
      simp only [isManifestPath, ht, hd, Option.isSome_none, Option.isSome_some, Bool.false_or,
        if_true]
      refine List.Forall₂.cons ⟨hdata, Or.inr ⟨?_, ?_, htag⟩⟩ List.Forall₂.nil
      · rw [hd, hrepo, hdt, hdv]
      · rw [hname, hdt, hdv]
  · obtain ⟨hm, hrepo, hname, htag, hdt, hdv, hdata, _, _, _⟩ := readManifest_ok hr
    rcases digestBlock_ok h2 with ⟨hd, rfl⟩ | ⟨repo2, alg, hex, c2, i2, hd, _, hr2, rfl⟩
    · refine ⟨[i1], by simp [hm], ?_⟩
      simp only [isManifestPath, ht, Option.isSome_some, Bool.true_or, if_true]
      refine List.Forall₂.cons ⟨hdata, Or.inl ⟨?_, ?_, hdt, hdv⟩⟩ List.Forall₂.nil
      · rw [ht, hrepo, htag]
      · rw [hname, htag]
    · exfalso
      obtain ⟨_, _, _, _, _, _, _, _, hsome, _⟩ := readManifest_ok hr2
      simp [hnil] at hsome

/-! ## The parse loop as a whole -/

/-- The records a successful run of the loop appends: one per manifest entry,
in the order of the entries. -/
theorem parseLoop_records {J : JsonLib} (hnil : J.parse [] = none) (nextErr : Bool)
    (es : List Entry) (ctx ctx1 : ImportContext)
    (h : parseLoop J nextErr ctx es = Except.ok ctx1) :
    ∃ ms, ctx1.manifests = ctx.manifests ++ ms ∧
      List.Forall₂ recordOf (es.filter (fun e => isManifestPath e.name)) ms := by
  induction es generalizing ctx with
  | nil =>
    simp only [parseLoop] at h
    split at h
    · simp at h
    · simp only [Except.ok.injEq] at h
      subst h
      exact ⟨[], by simp, by simp⟩
  | cons e es ih =>
    simp only [parseLoop] at h
    cases he : parseEntry J ctx e with
    | error err => rw [he] at h; simp at h
    | ok c =>
      rw [he] at h
      simp only at h
      obtain ⟨ms1, hm1, hf1⟩ := parseEntry_records hnil he
      obtain ⟨ms2, hm2, hf2⟩ := ih c h
      refine ⟨ms1 ++ ms2, by rw [hm2, hm1, List.append_assoc], ?_⟩
      have hsplit : (e :: es).filter (fun e => isManifestPath e.name)
          = (if isManifestPath e.name then [e] else [])
            ++ es.filter (fun e => isManifestPath e.name) := by
        by_cases hp : isManifestPath e.name = true <;> simp [List.filter_cons, hp]
      rw [hsplit]
      exact List.rel_append hf1 hf2

/-- The records of a successful `parseArchive`. -/
theorem parseArchive_records {J : JsonLib} (hnil : J.parse [] = none) {file : Archive}
    {ctx : ImportContext} (h : parseArchive J file = Except.ok ctx) :
    List.Forall₂ recordOf (file.entries.filter (fun e => isManifestPath e.name)) ctx.manifests := by
  unfold parseArchive at h
  split at h
  · simp at h
  · obtain ⟨ms, hm, hf⟩ := parseLoop_records hnil _ _ _ _ h
    simp only [List.nil_append] at hm
    rw [hm]
    exact hf

/-- An iteration on a manifest entry whose payload is not well-formed JSON
returns an error. -/
theorem parseEntry_malformed (J : JsonLib) (ctx : ImportContext) (e : Entry)
    (hpath : isManifestPath e.name = true) (hbad : J.parse e.data = none) :
    ∃ err, parseEntry J ctx e = Except.error err := by
  unfold parseEntry tagBlock
  cases ht : regexpTagManifestFile e.name with
  | some g =>
    simp only [Reader.readAll]
    by_cases hf : e.readErr = true
    · exact ⟨"unexpected EOF", by simp [hf]⟩
    · have hf2 : e.readErr = false := by simpa using hf
      simp only [hf2, Bool.false_eq_true, if_false]
      rw [readManifest_malformed J ctx _ hbad]
      exact ⟨_, rfl⟩
  | none =>
    simp only
    unfold digestBlock
    cases hd : regexpManifestFile e.name with
    | none => simp [isManifestPath, ht, hd] at hpath
    | some g =>
      simp only [Reader.readAll]
      by_cases hf : e.readErr = true
      · exact ⟨"unexpected EOF", by simp [hf]⟩
      · have hf2 : e.readErr = false := by simpa using hf
        simp only [hf2, Bool.false_eq_true, if_false]
        rw [readManifest_malformed J ctx _ hbad]
        exact ⟨_, rfl⟩

/-- The loop returns an error when one of its manifest entries holds a payload
that is not well-formed JSON. -/
theorem parseLoop_malformed (J : JsonLib) (nextErr : Bool) (es : List Entry) (ctx : ImportContext)
    (e : Entry) (hin : e ∈ es) (hpath : isManifestPath e.name = true)
    (hbad : J.parse e.data = none) :
    ∃ err, parseLoop J nextErr ctx es = Except.error err := by
  induction es generalizing ctx with
  | nil => simp at hin
  | cons e1 es ih =>
    simp only [parseLoop]
    cases he : parseEntry J ctx e1 with
    | error err => exact ⟨err, rfl⟩
    | ok c =>
      simp only
      rcases List.mem_cons.mp hin with h | h
      · subst h
        obtain ⟨err, herr⟩ := parseEntry_malformed J ctx e hpath hbad
        rw [herr] at he
        simp at he
      · exact ih c h

/-! ## C8: a malformed manifest aborts the run -/

/-- C8: when some manifest entry of the archive holds a payload that is not
well-formed JSON, `parseArchive` returns an error, and `DoImport` ends in
`log.Fatalln` with an empty trace of registry calls. -/
theorem C8_malformed_manifest_aborts (J : JsonLib) (file : Archive) (e : Entry)
    (hin : e ∈ file.entries) (hpath : isManifestPath e.name = true)
    (hbad : J.parse e.data = none) :
    ∃ err, parseArchive J file = Except.error err ∧
      ∀ (σ : Type) (R : Registry σ) (s0 : σ),
        (DoImport J R s0 file).1.trace = [] ∧ (DoImport J R s0 file).1.state = s0 ∧
        (DoImport J R s0 file).2 = Exit.fatal err := by
  have herr : ∃ err, parseArchive J file = Except.error err := by
    unfold parseArchive
    split
    · exact ⟨_, rfl⟩
    · exact parseLoop_malformed J _ _ _ e hin hpath hbad
  obtain ⟨err, herr⟩ := herr
  refine ⟨err, herr, ?_⟩
  intro σ R s0
  simp [DoImport, herr]

/-- C8 at an archive whose manifest entry holds the payload `{`. -/
theorem C8_malformed_manifest_aborts_witness :
    ∃ err, parseArchive sampleJson brokenArchive = Except.error err ∧
      ∀ (σ : Type) (R : Registry σ) (s0 : σ),
        (DoImport sampleJson R s0 brokenArchive).1.trace = [] ∧
        (DoImport sampleJson R s0 brokenArchive).1.state = s0 ∧
        (DoImport sampleJson R s0 brokenArchive).2 = Exit.fatal err :=
  C8_malformed_manifest_aborts sampleJson brokenArchive ⟨"repoA/manifests/latest", [123], false⟩
    (by decide) (by decide) rfl

/-! ## C9: the manifest list after the parse -/

/-- C9: after a successful `parseArchive` the manifest list holds one record
per entry whose path is a tag-manifest or digest-manifest path, in archive
order; each record keeps the entry's whole payload and is named by the groups
of the pattern on the entry's path. The JSON library rejects the empty input. -/
theorem C9_manifest_list (J : JsonLib) (file : Archive) (ctx : ImportContext)
    (hnil : J.parse [] = none) (h : parseArchive J file = Except.ok ctx) :
    List.Forall₂ recordOf (file.entries.filter (fun e => isManifestPath e.name)) ctx.manifests ∧
      ctx.manifests.length = (file.entries.filter (fun e => isManifestPath e.name)).length ∧
      ctx.manifests.map (fun m => m.data)
        = (file.entries.filter (fun e => isManifestPath e.name)).map (fun e => e.data) := by
  have hrec := parseArchive_records hnil h
  refine ⟨hrec, hrec.length_eq.symm, ?_⟩
  generalize file.entries.filter (fun e => isManifestPath e.name) = es at hrec
  generalize ctx.manifests = ms at hrec
  induction hrec with
  | nil => rfl
  | cons hab _ ih => simp [hab.1, ih]

/-- C9 at the sample archive: two manifest entries among five, two records. -/
theorem C9_manifest_list_witness :
    List.Forall₂ recordOf (smallArchive.entries.filter (fun e => isManifestPath e.name))
        smallContext.manifests ∧
      smallContext.manifests.length
        = (smallArchive.entries.filter (fun e => isManifestPath e.name)).length ∧
      smallContext.manifests.map (fun m => m.data)
        = (smallArchive.entries.filter (fun e => isManifestPath e.name)).map (fun e => e.data) :=
  C9_manifest_list sampleJson smallArchive smallContext rfl rfl

/-! ## C10: the calls of uploadManifests -/

/-- The trace of the manifest loop: the calls so far, then one `PutManifest`
per submitted record, in list order, whatever the registry answers. -/
theorem uploadManifestsLoop_trace {σ : Type} (J : JsonLib) (R : Registry σ)
    (ms : List ManifestFile) (s : Session σ) :
    (uploadManifestsLoop J R s ms).trace = s.trace ++ (ms.filter (submitted J)).map putCall := by
  induction ms generalizing s with
  | nil => simp [uploadManifestsLoop]
  | cons m ms ih =>
    simp only [uploadManifestsLoop]
    cases hv : m.manifestV2 with
    | none => simp [ih, List.filter_cons, submitted, hv]
    | some m2 =>
      cases hd : J.deserialize m.data with
      | error err => simp [ih, List.filter_cons, submitted, hv, hd]
      | ok u => simp [ih, List.filter_cons, submitted, hv, hd, putCall]

/-- Every element of the right list of a `Forall₂` has a partner in the left list. -/
theorem forall₂_partner {α β : Type} {r : α → β → Prop} {xs : List α} {ys : List β}
    (h : List.Forall₂ r xs ys) (y : β) (hy : y ∈ ys) : ∃ x ∈ xs, r x y := by
  induction h with
  | nil => simp at hy
  | cons hab _ ih =>
    rcases List.mem_cons.mp hy with h1 | h1
    · subst h1
      exact ⟨_, List.mem_cons_self _ _, hab⟩
    · obtain ⟨x, hx, hr⟩ := ih h1
      exact ⟨x, List.mem_cons_of_mem _ hx, hr⟩

/-- C10: `uploadManifests` returns nil, and the calls it adds to the trace are
one `PutManifest (repository, name, raw bytes)` per record whose schema 2 form
is set and whose raw bytes decode again, in list order; the registry's answers
do not enter. For the records of a successful `parseArchive` the name is the tag
of a tag-manifest entry or `algorithm:hex` of a digest-manifest entry. -/
theorem C10_put_manifest_calls {σ : Type} (J : JsonLib) (R : Registry σ) (ctx : ImportContext)
    (s : Session σ) :
    (uploadManifests J R ctx s).2 = Outcome.ok ∧
      (uploadManifests J R ctx s).1.trace
        = s.trace ++ (ctx.manifests.filter (submitted J)).map putCall ∧
      ∀ file : Archive, J.parse [] = none → parseArchive J file = Except.ok ctx →
        ∀ m ∈ ctx.manifests, ∃ e ∈ file.entries,
          (regexpTagManifestFile e.name = some (m.repository, m.tag) ∧ m.name = m.tag) ∨
          (regexpManifestFile e.name = some (m.repository, m.digestType, m.digestValue) ∧
            m.name = m.digestType ++ ":" ++ m.digestValue) := by
  refine ⟨rfl, uploadManifestsLoop_trace J R ctx.manifests s, ?_⟩
  intro file hnil hparse m hm
  obtain ⟨e, he, hrec⟩ := forall₂_partner (parseArchive_records hnil hparse) m hm
  refine ⟨e, (List.mem_filter.mp he).1, ?_⟩
  rcases hrec.2 with ⟨h1, h2, _, _⟩ | ⟨h1, h2, _⟩
  · exact Or.inl ⟨h1, h2⟩
  · exact Or.inr ⟨h1, h2⟩

/-- C10 at the sample archive: of the two records only the schema 2 record
under the tag `latest` is submitted. -/
theorem C10_put_manifest_calls_witness :
    (uploadManifests sampleJson emptyRegistry smallContext ⟨(), []⟩).1.trace
        = [Event.PutManifest "repoA" "latest" payloadV2] ∧
      ∀ m ∈ smallContext.manifests, ∃ e ∈ smallArchive.entries,
        (regexpTagManifestFile e.name = some (m.repository, m.tag) ∧ m.name = m.tag) ∨
        (regexpManifestFile e.name = some (m.repository, m.digestType, m.digestValue) ∧
          m.name = m.digestType ++ ":" ++ m.digestValue) :=
  ⟨(C10_put_manifest_calls sampleJson emptyRegistry smallContext ⟨(), []⟩).2.1,
   (C10_put_manifest_calls sampleJson emptyRegistry smallContext ⟨(), []⟩).2.2
      smallArchive rfl rfl⟩

/-! ## C7: a manifest of another schema version -/

/-- A record without schema 2 form is passed over by the manifest loop. -/
theorem uploadManifestsLoop_skip {σ : Type} (J : JsonLib) (R : Registry σ)
    (pre post : List ManifestFile) (item : ManifestFile) (hv2 : item.manifestV2 = none)
    (s : Session σ) :
    uploadManifestsLoop J R s (pre ++ item :: post) = uploadManifestsLoop J R s (pre ++ post) := by
  induction pre generalizing s with
  | nil => simp [uploadManifestsLoop, hv2]
  | cons m pre ih =>
    simp only [List.cons_append, uploadManifestsLoop]
    cases m.manifestV2 with
    | none => exact ih s
    | some m2 =>
      cases J.deserialize m.data with
      | error err => exact ih s
      | ok u => exact ih _

/-- C7, counterexample: two manifest entries with the payload
`{"schemaVersion":3}`. The path of the first matches the tag pattern and the
digest pattern: the digest block reads the consumed entry, gets no bytes, and
`parseArchive` returns an error instead of going on. The path of the second
matches the tag pattern and the blob pattern: the blob index gets a record. -/
theorem C7_other_version_not_always_recorded :
    sampleJson.parse payloadV3 = some (JVal.obj [("schemaVersion", JVal.int 3)]) ∧
      decodeVersioned (JVal.obj [("schemaVersion", JVal.int 3)]) = Except.ok ⟨3, ""⟩ ∧
      isManifestPath "a/manifests/b:c/manifests/d" = true ∧
      parseArchive sampleJson doubleMatchArchive = Except.error "json: syntax error" ∧
      isManifestPath "blob/sha256:x/manifests/latest" = true ∧
      parseArchive sampleJson tagBlobArchive
        = Except.ok
            { manifests := [{ repository := "blob/sha256:x", name := "latest", digestType := "",
                              digestValue := "", tag := "latest", data := payloadV3,
                              manifestV1 := none, manifestV2 := none, addr := 0 }],
              blobs := [("sha256:x/manifests/latest", ⟨false, [], 0⟩)] } :=
  ⟨rfl, rfl, by decide, rfl, by decide, rfl⟩

/-- C7, amended: for a manifest entry whose path matches exactly one of the two
manifest patterns and not the blob pattern, and whose readable payload is
well-formed JSON that decodes to a schema version other than 1 and 2, the
iteration appends one record with the entry's payload and with neither decoded
form set, leaves the blob index as it is, and the loop goes on with the
following entries; the manifest loop of `uploadManifests` passes the record
over, so no `PutManifest` call is made for it. -/
theorem C7_other_version_recorded_not_submitted (J : JsonLib) (ctx : ImportContext) (e : Entry)
    (v : JVal) (ver : Versioned)
    (hone : (regexpTagManifestFile e.name).isSome ≠ (regexpManifestFile e.name).isSome)
    (hnoblob : regxpBlobFile e.name = none) (hread : e.readErr = false)
    (hparse : J.parse e.data = some v) (hver : decodeVersioned v = Except.ok ver)
    (h1 : ver.SchemaVersion ≠ 1) (h2 : ver.SchemaVersion ≠ 2) :
    ∃ item, parseEntry J ctx e
          = Except.ok { manifests := ctx.manifests ++ [item], blobs := ctx.blobs } ∧
      recordOf e item ∧ item.manifestV1 = none ∧ item.manifestV2 = none ∧
      (∀ (nextErr : Bool) (es : List Entry),
        parseLoop J nextErr ctx (e :: es)
          = parseLoop J nextErr { manifests := ctx.manifests ++ [item], blobs := ctx.blobs } es) ∧
      (∀ (σ : Type) (R : Registry σ) (s : Session σ) (pre post : List ManifestFile),
        uploadManifestsLoop J R s (pre ++ item :: post)
          = uploadManifestsLoop J R s (pre ++ post)) := by
  cases ht : regexpTagManifestFile e.name with
  | some g =>
    have hd : regexpManifestFile e.name = none := by
      cases hd : regexpManifestFile e.name with
      | none => rfl
      | some g2 => simp [ht, hd] at hone
    have hentry : parseEntry J ctx e
        = Except.ok { manifests := ctx.manifests ++
            [{ repository := g.1, name := g.2, digestType := "", digestValue := "", tag := g.2,
               data := e.data, manifestV1 := none, manifestV2 := none,
               addr := ctx.manifests.length }], blobs := ctx.blobs } := by
      simp only [parseEntry, tagBlock, ht, Reader.readAll, hread, Bool.false_eq_true, if_false]
      rw [readManifest_other_version J ctx _ v ver hparse hver h1 h2]
      simp [digestBlock, hd, blobBlock, hnoblob]
    refine ⟨_, hentry, ⟨rfl, Or.inl ⟨ht, rfl, rfl, rfl⟩⟩, rfl, rfl, ?_, ?_⟩
    · intro nextErr es
      simp only [parseLoop, hentry]
    · intro σ R s pre post
      exact uploadManifestsLoop_skip J R pre post _ rfl s
  | none =>
    cases hd : regexpManifestFile e.name with
    | none => simp [ht, hd] at hone
    | some g =>
      have hentry : parseEntry J ctx e
          = Except.ok { manifests := ctx.manifests ++
              [{ repository := g.1, name := g.2.1 ++ ":" ++ g.2.2, digestType := g.2.1,
                 digestValue := g.2.2, tag := "", data := e.data, manifestV1 := none,
                 manifestV2 := none, addr := ctx.manifests.length }], blobs := ctx.blobs } := by
        simp only [parseEntry, tagBlock, ht, digestBlock, hd, Reader.readAll, hread,
          Bool.false_eq_true, if_false]
        rw [readManifest_other_version J ctx _ v ver hparse hver h1 h2]
        simp [blobBlock, hnoblob]
      refine ⟨_, hentry, ⟨rfl, Or.inr ⟨hd, rfl, rfl⟩⟩, rfl, rfl, ?_, ?_⟩
      · intro nextErr es
        simp only [parseLoop, hentry]
      · intro σ R s pre post
        exact uploadManifestsLoop_skip J R pre post _ rfl s

/-- C7, the amended claim at the entry `repoA/manifests/sha256:ddd` with the
payload `{"schemaVersion":3}`, after the record of `repoA/manifests/latest`. -/
theorem C7_other_version_recorded_not_submitted_witness :
    ∃ item, parseEntry sampleJson ⟨[smallTagRecord], []⟩
            ⟨"repoA/manifests/sha256:ddd", payloadV3, false⟩
          = Except.ok { manifests := [smallTagRecord] ++ [item], blobs := [] } ∧
      recordOf ⟨"repoA/manifests/sha256:ddd", payloadV3, false⟩ item ∧
      item.manifestV1 = none ∧ item.manifestV2 = none ∧
      (∀ (nextErr : Bool) (es : List Entry),
        parseLoop sampleJson nextErr ⟨[smallTagRecord], []⟩
            (⟨"repoA/manifests/sha256:ddd", payloadV3, false⟩ :: es)
          = parseLoop sampleJson nextErr
              { manifests := [smallTagRecord] ++ [item], blobs := [] } es) ∧
      (∀ (σ : Type) (R : Registry σ) (s : Session σ) (pre post : List ManifestFile),
        uploadManifestsLoop sampleJson R s (pre ++ item :: post)
          = uploadManifestsLoop sampleJson R s (pre ++ post)) :=
  C7_other_version_recorded_not_submitted sampleJson ⟨[smallTagRecord], []⟩
    ⟨"repoA/manifests/sha256:ddd", payloadV3, false⟩ (JVal.obj [("schemaVersion", JVal.int 3)])
    ⟨3, ""⟩ (by decide) (by decide) rfl rfl rfl (by decide) (by decide)

/-! ## C4: the size recorded for a blob entry -/

/-- The blob key determines the path. -/
theorem regxpBlobFile_key_inj {n1 n2 a1 h1 a2 h2 : String}
    (hm1 : regxpBlobFile n1 = some (a1, h1)) (hm2 : regxpBlobFile n2 = some (a2, h2))
    (hkey : a1 ++ ":" ++ h1 = a2 ++ ":" ++ h2) : n1 = n2 := by
  rw [(regxpBlobFile_some hm1).1, (regxpBlobFile_some hm2).1, hkey]

/-- A record, once there, stays through an iteration; its size stays unless
the entry is a blob entry for its key. -/
theorem parseEntry_keeps {J : JsonLib} {ctx ctx1 : ImportContext} {e : Entry}
    (h : parseEntry J ctx e = Except.ok ctx1) (k : String) (b : BlobItem)
    (hb : ctx.blobs.get k = some b) :
    ∃ b', ctx1.blobs.get k = some b' ∧
      ((∀ alg hex, regxpBlobFile e.name = some (alg, hex) → alg ++ ":" ++ hex ≠ k) →
        b'.size = b.size) := by
  obtain ⟨st1, st2, st3, ht, hd, hbl, rfl⟩ := parseEntry_ok h
  have k1 : ∃ b1, st1.1.blobs.get k = some b1 ∧ b1.size = b.size := by
    rcases tagBlock_ok ht with ⟨_, rfl⟩ | ⟨_, _, c1, i1, _, _, hr, rfl⟩
    · exact ⟨b, hb, rfl⟩
    · exact (readManifest_ok hr).2.2.2.2.2.2.2.2.2 k b hb
  obtain ⟨b1, hb1, hs1⟩ := k1
  have k2 : ∃ b2, st2.1.blobs.get k = some b2 ∧ b2.size = b.size := by
    rcases digestBlock_ok hd with ⟨_, rfl⟩ | ⟨_, _, _, c2, i2, _, _, hr, rfl⟩
    · exact ⟨b1, hb1, hs1⟩
    · obtain ⟨b2, hb2, hs2⟩ := (readManifest_ok hr).2.2.2.2.2.2.2.2.2 k b1 hb1
      exact ⟨b2, hb2, hs2.trans hs1⟩
  obtain ⟨b2, hb2, hs2⟩ := k2
  rcases blobBlock_ok hbl with ⟨_, rfl⟩ | ⟨alg, hex, nb, hm, _, _, rfl⟩
  · exact ⟨b2, hb2, fun _ => hs2⟩
  · by_cases hk : k = alg ++ ":" ++ hex
    · subst hk
      exact ⟨nb, BlobMap.get_put_self _ _ _, fun hne => absurd rfl (hne alg hex hm)⟩
    · exact ⟨b2, by simp only; rw [BlobMap.get_put_of_ne _ _ _ _ hk]; exact hb2, fun _ => hs2⟩

/-- A record, once there, stays through the loop; its size stays unless a
later entry is a blob entry for its key. -/
theorem parseLoop_keeps {J : JsonLib} (nextErr : Bool) (es : List Entry)
    (ctx ctx1 : ImportContext) (h : parseLoop J nextErr ctx es = Except.ok ctx1) (k : String)
    (b : BlobItem) (hb : ctx.blobs.get k = some b) :
    ∃ b', ctx1.blobs.get k = some b' ∧
      ((∀ e ∈ es, ∀ alg hex, regxpBlobFile e.name = some (alg, hex) → alg ++ ":" ++ hex ≠ k) →
        b'.size = b.size) := by
  induction es generalizing ctx b with
  | nil =>
    simp only [parseLoop] at h
    split at h
    · simp at h
    · simp only [Except.ok.injEq] at h
      subst h
      exact ⟨b, hb, fun _ => rfl⟩
  | cons e es ih =>
    simp only [parseLoop] at h
    cases he : parseEntry J ctx e with
    | error err => rw [he] at h; simp at h
    | ok c =>
      rw [he] at h
      simp only at h
      obtain ⟨b1, hb1, hs1⟩ := parseEntry_keeps he k b hb
      obtain ⟨b2, hb2, hs2⟩ := ih c h b1 hb1
      refine ⟨b2, hb2, fun hne => ?_⟩
      rw [hs2 (fun e' he' => hne e' (List.mem_cons_of_mem _ he')),
        hs1 (hne e (List.mem_cons_self _ _))]

/-- A successful run of the loop over `pre ++ e :: post` runs `pre`, then the
iteration on `e`, then `post`. -/
theorem parseLoop_split {J : JsonLib} (nextErr : Bool) (pre post : List Entry) (e : Entry)
    (ctx ctx1 : ImportContext)
    (h : parseLoop J nextErr ctx (pre ++ e :: post) = Except.ok ctx1) :
    ∃ c1 c2, parseLoop J false ctx pre = Except.ok c1 ∧ parseEntry J c1 e = Except.ok c2 ∧
      parseLoop J nextErr c2 post = Except.ok ctx1 := by
  induction pre generalizing ctx with
  | nil =>
    simp only [List.nil_append, parseLoop] at h
    cases he : parseEntry J ctx e with
    | error err => rw [he] at h; simp at h
    | ok c =>
      rw [he] at h
      exact ⟨ctx, c, by simp [parseLoop], he, h⟩
  | cons e1 pre ih =>
    simp only [List.cons_append, parseLoop] at h
    cases he : parseEntry J ctx e1 with
    | error err => rw [he] at h; simp at h
    | ok c =>
      rw [he] at h
      obtain ⟨c1, c2, hp, hentry, hpost⟩ := ih c h
      exact ⟨c1, c2, by simp [parseLoop, he, hp], hentry, hpost⟩

/-- After an iteration on a blob entry the index holds a record under its key;
the size is the entry's byte length when the path is no manifest path. -/
theorem parseEntry_blob {J : JsonLib} {ctx ctx1 : ImportContext} {e : Entry} {alg hex : String}
    (h : parseEntry J ctx e = Except.ok ctx1) (hm : regxpBlobFile e.name = some (alg, hex)) :
    ∃ b, ctx1.blobs.get (alg ++ ":" ++ hex) = some b ∧
      (regexpTagManifestFile e.name = none → regexpManifestFile e.name = none →
        b.size = e.data.length) := by
  obtain ⟨st1, st2, st3, ht, hd, hbl, rfl⟩ := parseEntry_ok h
  rcases blobBlock_ok hbl with ⟨hnone, _⟩ | ⟨alg2, hex2, nb, hm2, _, hsize, rfl⟩
  · rw [hnone] at hm; simp at hm
  · rw [hm] at hm2
    simp only [Option.some.injEq, Prod.mk.injEq] at hm2
    obtain ⟨ha, hh⟩ := hm2
    subst ha hh
    refine ⟨nb, BlobMap.get_put_self _ _ _, fun htn hdn => ?_⟩
    rcases tagBlock_ok ht with ⟨_, rfl⟩ | ⟨_, _, _, _, hsome, _⟩
    · rcases digestBlock_ok hd with ⟨_, rfl⟩ | ⟨_, _, _, _, _, hsome, _⟩
      · exact hsize
      · rw [hdn] at hsome; simp at hsome
    · rw [htn] at hsome; simp at hsome

/-- C4, counterexample: two archives on which `parseArchive` succeeds. In the
first the path `blob/sha256:aaa` occurs with three bytes and again with two
bytes, and the record holds the size 2, not the first entry's 3. In the second
the path `blob/sha256:x/manifests/latest` also matches the tag pattern; the tag
block reads the 19 payload bytes and the record holds the size 0. -/
theorem C4_size_differs_from_entry_length :
    parseArchive sampleJson repeatedBlobArchive
        = Except.ok ⟨[], [("sha256:aaa", ⟨false, [], 2⟩)]⟩ ∧
      regxpBlobFile "blob/sha256:aaa" = some ("sha256", "aaa") ∧
      ([1, 2, 3] : Bytes).length = 3 ∧
      regxpBlobFile "blob/sha256:x/manifests/latest" = some ("sha256", "x/manifests/latest") ∧
      payloadV3.length = 19 ∧
      (∃ ctx b, parseArchive sampleJson tagBlobArchive = Except.ok ctx ∧
        ctx.blobs.get "sha256:x/manifests/latest" = some b ∧ b.size = 0) :=
  ⟨rfl, by decide, rfl, by decide, rfl, ⟨_, _, rfl, rfl, rfl⟩⟩

/-- C4, amended: after a successful `parseArchive` the blob index holds a record
under the key `alg:hex` of every entry whose path matches the blob pattern,
whatever manifests came before or after; the record's size is the entry's byte
length when the path matches neither manifest pattern and no later entry has
the same path. -/
theorem C4_blob_record_size (J : JsonLib) (file : Archive) (ctx : ImportContext)
    (pre post : List Entry) (e : Entry) (alg hex : String)
    (hparse : parseArchive J file = Except.ok ctx) (hsplit : file.entries = pre ++ e :: post)
    (hblob : regxpBlobFile e.name = some (alg, hex)) :
    ∃ b, ctx.blobs.get (alg ++ ":" ++ hex) = some b ∧
      (regexpTagManifestFile e.name = none → regexpManifestFile e.name = none →
        (∀ e' ∈ post, e'.name ≠ e.name) → b.size = e.data.length) := by
  unfold parseArchive at hparse
  split at hparse
  · simp at hparse
  · rw [hsplit] at hparse
    obtain ⟨c1, c2, _, hentry, hpost⟩ := parseLoop_split _ pre post e _ _ hparse
    obtain ⟨b1, hb1, hs1⟩ := parseEntry_blob hentry hblob
    obtain ⟨b2, hb2, hs2⟩ := parseLoop_keeps _ post c2 ctx hpost _ b1 hb1
    refine ⟨b2, hb2, fun htn hdn hlast => ?_⟩
    rw [hs2 (fun e' he' a2 h2 hm2 hkey => hlast e' he' (regxpBlobFile_key_inj hm2 hblob hkey)),
      hs1 htn hdn]

/-- C4, the amended claim at the entry `blob/sha256:aaa` of the sample archive,
which comes after the manifest that references the digest: the record holds
the size 3. -/
theorem C4_blob_record_size_witness :
    ∃ b, smallContext.blobs.get "sha256:aaa" = some b ∧ b.size = 3 := by
  obtain ⟨b, hb, hs⟩ := C4_blob_record_size sampleJson smallArchive smallContext
    [⟨"README", [9], false⟩, ⟨"repoA/manifests/latest", payloadV2, false⟩]
    [⟨"repoA/manifests/sha256:ddd", payloadV3, false⟩, ⟨"blob/sha256:bbb", [4, 5], false⟩]
    ⟨"blob/sha256:aaa", [1, 2, 3], false⟩ "sha256" "aaa" rfl rfl (by decide)
  exact ⟨b, hb, hs (by decide) (by decide) (by decide)⟩

/-! ## C14: entries the importer does not know -/

/-- An iteration of the parse loop on an entry whose path matches none of the
three patterns returns the context as it was. -/
theorem parseEntry_unrecognized (J : JsonLib) (ctx : ImportContext) (e : Entry)
    (ht : regexpTagManifestFile e.name = none) (hd : regexpManifestFile e.name = none)
    (hb : regxpBlobFile e.name = none) : parseEntry J ctx e = Except.ok ctx := by
  simp [parseEntry, tagBlock, digestBlock, blobBlock, ht, hd, hb]

/-- The parse loop over `pre ++ e :: post` equals the loop over `pre ++ post`
when `e` is an entry the importer does not know. -/
theorem parseLoop_insert_unrecognized (J : JsonLib) (nextErr : Bool) (pre post : List Entry)
    (e : Entry) (ctx : ImportContext)
    (ht : regexpTagManifestFile e.name = none) (hd : regexpManifestFile e.name = none)
    (hb : regxpBlobFile e.name = none) :
    parseLoop J nextErr ctx (pre ++ e :: post) = parseLoop J nextErr ctx (pre ++ post) := by
  induction pre generalizing ctx with
  | nil => simp [parseLoop, parseEntry_unrecognized J ctx e ht hd hb]
  | cons e1 pre ih =>
    simp only [List.cons_append, parseLoop]
    cases parseEntry J ctx e1 with
    | error err => rfl
    | ok c => exact ih c

/-- C14: an entry whose path matches none of the tag-manifest, digest-manifest
and blob patterns, inserted at any position of the archive, changes nothing in
the result of `parseArchive`: the same error, or the same manifest list and
blob index; the iteration on such an entry returns the context unchanged. -/
theorem C14_unrecognized_entry_skipped (J : JsonLib) (pre post : List Entry) (e : Entry)
    (openErr nextErr : Bool)
    (ht : regexpTagManifestFile e.name = none) (hd : regexpManifestFile e.name = none)
    (hb : regxpBlobFile e.name = none) :
    parseArchive J ⟨pre ++ e :: post, openErr, nextErr⟩
        = parseArchive J ⟨pre ++ post, openErr, nextErr⟩ ∧
      ∀ ctx : ImportContext, parseEntry J ctx e = Except.ok ctx := by
  refine ⟨?_, fun ctx => parseEntry_unrecognized J ctx e ht hd hb⟩
  unfold parseArchive
  simp only
  split
  · rfl
  · exact parseLoop_insert_unrecognized J nextErr pre post e _ ht hd hb

/-- C14 at the entry `README`, put between the manifest and the first blob of
an archive. -/
theorem C14_unrecognized_entry_skipped_witness :
    parseArchive sampleJson
        ⟨[⟨"repoA/manifests/latest", payloadV2, false⟩] ++ ⟨"README", [9], false⟩ ::
          [⟨"blob/sha256:aaa", [1, 2, 3], false⟩], false, false⟩
        = parseArchive sampleJson
          ⟨[⟨"repoA/manifests/latest", payloadV2, false⟩] ++
            [⟨"blob/sha256:aaa", [1, 2, 3], false⟩], false, false⟩ ∧
      ∀ ctx : ImportContext, parseEntry sampleJson ctx ⟨"README", [9], false⟩ = Except.ok ctx :=
  C14_unrecognized_entry_skipped sampleJson [⟨"repoA/manifests/latest", payloadV2, false⟩]
    [⟨"blob/sha256:aaa", [1, 2, 3], false⟩] ⟨"README", [9], false⟩ false false
    (by decide) (by decide) (by decide)

/-! ## The loop of uploadBlobs, one iteration at a time -/

/-- The loop runs `blobStep` on the first entry and goes on with the rest, or
stops with the panic of that iteration. -/
theorem uploadBlobsLoop_cons {σ : Type} (R : Registry σ) (ctx : ImportContext) (nextErr : Bool)
    (s : Session σ) (e : Entry) (es : List Entry) :
    uploadBlobsLoop R ctx nextErr s (e :: es)
      = (match blobStep R ctx s e with
        | none => (s, Outcome.panic "runtime error: index out of range [0] with length 0")
        | some s1 => uploadBlobsLoop R ctx nextErr s1 es) := by
  simp only [uploadBlobsLoop, blobStep]
  cases regxpBlobFile e.name with
  | none => rfl
  | some groups =>
    simp only
    cases ctx.blobs.get (groups.1 ++ ":" ++ groups.2) with
    | none => rfl
    | some blob =>
      simp only
      cases blob.manifests with
      | nil => rfl
      | cons manifest rest =>
        simp only
        split <;> rfl

/-- What one iteration adds to the trace: nothing, or a `HasBlob` call, or a
`HasBlob` call answered "absent" followed by the `UploadBlob` call with the
same repository and digest. -/
theorem blobStep_trace {σ : Type} (R : Registry σ) (ctx : ImportContext) (s s1 : Session σ)
    (e : Entry) (h : blobStep R ctx s e = some s1) :
    s1.trace = s.trace ∨
      (∃ r d, s1.trace = s.trace ++ [Event.HasBlob r d] ∧ (R.HasBlob s.state r d).1 = true) ∨
      (∃ r d c n, s1.trace = s.trace ++ [Event.HasBlob r d, Event.UploadBlob r d c n] ∧
        (R.HasBlob s.state r d).1 = false) := by
  unfold blobStep at h
  cases hm : regxpBlobFile e.name with
  | none => rw [hm] at h; simp only [Option.some.injEq] at h; subst h; exact Or.inl rfl
  | some groups =>
    rw [hm] at h
    simp only at h
    cases hg : ctx.blobs.get (groups.1 ++ ":" ++ groups.2) with
    | none => rw [hg] at h; simp only [Option.some.injEq] at h; subst h; exact Or.inl rfl
    | some blob =>
      rw [hg] at h
      simp only at h
      cases hl : blob.manifests with
      | nil => rw [hl] at h; simp at h
      | cons manifest rest =>
        rw [hl] at h
        simp only at h
        by_cases hhas : (R.HasBlob s.state manifest.repository (groups.1 ++ ":" ++ groups.2)).1
            = true
        · simp only [hhas, if_true, Option.some.injEq] at h
          subst h
          exact Or.inr (Or.inl ⟨_, _, rfl, hhas⟩)
        · have hf : (R.HasBlob s.state manifest.repository (groups.1 ++ ":" ++ groups.2)).1
              = false := by simpa using hhas
          simp only [hf, Bool.false_eq_true, if_false, Option.some.injEq] at h
          subst h
          exact Or.inr (Or.inr ⟨manifest.repository, groups.1 ++ ":" ++ groups.2, e.data,
            blob.size, by simp, hf⟩)

/-- What every iteration adds to the trace, the whole loop adds. -/
theorem uploadBlobsLoop_added {σ : Type} (R : Registry σ) (ctx : ImportContext) (nextErr : Bool)
    (P : Event → Prop)
    (hstep : ∀ (s s1 : Session σ) (e : Entry), blobStep R ctx s e = some s1 →
      ∃ evs, s1.trace = s.trace ++ evs ∧ ∀ ev ∈ evs, P ev)
    (es : List Entry) (s : Session σ) :
    ∃ added, (uploadBlobsLoop R ctx nextErr s es).1.trace = s.trace ++ added ∧
      ∀ ev ∈ added, P ev := by
  induction es generalizing s with
  | nil => exact ⟨[], by simp [uploadBlobsLoop], by simp⟩
  | cons e es ih =>
    rw [uploadBlobsLoop_cons]
    cases hb : blobStep R ctx s e with
    | none => exact ⟨[], by simp, by simp⟩
    | some s1 =>
      obtain ⟨evs, htr, hP⟩ := hstep s s1 e hb
      obtain ⟨added, hadd, hPa⟩ := ih s1
      refine ⟨evs ++ added, by simp only; rw [hadd, htr, List.append_assoc], ?_⟩
      intro ev hev
      rcases List.mem_append.mp hev with h | h
      · exact hP ev h
      · exact hPa ev h

/-- The calls added by `uploadBlobs` are blob calls. -/
theorem uploadBlobs_blob_calls {σ : Type} (R : Registry σ) (ctx : ImportContext) (s : Session σ)
    (file : Archive) :
    ∃ added, (uploadBlobs R ctx s file).1.trace = s.trace ++ added ∧
      ∀ ev ∈ added, isBlobCall ev = true := by
  unfold uploadBlobs
  split
  · exact ⟨[], by simp, by simp⟩
  · apply uploadBlobsLoop_added R ctx file.nextErr (fun ev => isBlobCall ev = true)
    intro s s1 e h
    rcases blobStep_trace R ctx s s1 e h with h1 | ⟨r, d, h1, _⟩ | ⟨r, d, c, n, h1, _⟩
    · exact ⟨[], by simp [h1], by simp⟩
    · exact ⟨_, h1, by simp [isBlobCall]⟩
    · exact ⟨_, h1, by simp [isBlobCall]⟩

/-! ## C11: no upload of a blob the registry holds -/

/-- C11: an iteration of `uploadBlobs` either panics, or goes on after adding
nothing, or one `HasBlob` call, or one `HasBlob` call that reported the blob
absent followed by the `UploadBlob` call for the same repository and digest;
and against a registry whose `HasBlob` reports every blob present the pass adds
no `UploadBlob` call to the trace. -/
theorem C11_upload_only_when_absent {σ : Type} (R : Registry σ) (ctx : ImportContext) :
    (∀ (nextErr : Bool) (s : Session σ) (e : Entry) (es : List Entry),
      uploadBlobsLoop R ctx nextErr s (e :: es)
          = (s, Outcome.panic "runtime error: index out of range [0] with length 0") ∨
        ∃ s1, uploadBlobsLoop R ctx nextErr s (e :: es) = uploadBlobsLoop R ctx nextErr s1 es ∧
          (s1.trace = s.trace ∨
            (∃ r d, s1.trace = s.trace ++ [Event.HasBlob r d] ∧
              (R.HasBlob s.state r d).1 = true) ∨
            (∃ r d c n, s1.trace = s.trace ++ [Event.HasBlob r d, Event.UploadBlob r d c n] ∧
              (R.HasBlob s.state r d).1 = false))) ∧
      ((∀ st r d, (R.HasBlob st r d).1 = true) →
        ∀ (s : Session σ) (file : Archive),
          ∃ added, (uploadBlobs R ctx s file).1.trace = s.trace ++ added ∧
            ∀ ev ∈ added, isUpload ev = false) := by
  constructor
  · intro nextErr s e es
    rw [uploadBlobsLoop_cons]
    cases hb : blobStep R ctx s e with
    | none => exact Or.inl rfl
    | some s1 => exact Or.inr ⟨s1, rfl, blobStep_trace R ctx s s1 e hb⟩
  · intro hall s file
    unfold uploadBlobs
    split
    · exact ⟨[], by simp, by simp⟩
    · apply uploadBlobsLoop_added R ctx file.nextErr (fun ev => isUpload ev = false)
      intro s s1 e h
      rcases blobStep_trace R ctx s s1 e h with h1 | ⟨r, d, h1, _⟩ | ⟨r, d, c, n, _, h2⟩
      · exact ⟨[], by simp [h1], by simp⟩
      · exact ⟨_, h1, by simp [isUpload]⟩
      · rw [hall] at h2
        simp at h2

/-- C11 at the sample archive against the registry that holds every blob: two
`HasBlob` calls, no `UploadBlob` call. -/
theorem C11_upload_only_when_absent_witness :
    ∃ added, (uploadBlobs fullRegistry smallContext ⟨(), []⟩ smallArchive).1.trace = [] ++ added ∧
      ∀ ev ∈ added, isUpload ev = false :=
  (C11_upload_only_when_absent fullRegistry smallContext).2 (fun _ _ _ => rfl) ⟨(), []⟩
    smallArchive

/-! ## C13: a failing upload -/

/-- An iteration does not look at the error `UploadBlob` returns. -/
theorem blobStep_uploadsSucceed {σ : Type} (R : Registry σ) (ctx : ImportContext)
    (s : Session σ) (e : Entry) : blobStep (uploadsSucceed R) ctx s e = blobStep R ctx s e := rfl

theorem uploadBlobsLoop_uploadsSucceed {σ : Type} (R : Registry σ) (ctx : ImportContext)
    (nextErr : Bool) (es : List Entry) (s : Session σ) :
    uploadBlobsLoop (uploadsSucceed R) ctx nextErr s es = uploadBlobsLoop R ctx nextErr s es := by
  induction es generalizing s with
  | nil => rfl
  | cons e es ih =>
    rw [uploadBlobsLoop_cons, uploadBlobsLoop_cons, blobStep_uploadsSucceed]
    cases blobStep R ctx s e with
    | none => rfl
    | some s1 => exact ih s1

/-- The loop of `uploadBlobs` returns an error only for a fault of the tar
stream. -/
theorem uploadBlobsLoop_error {σ : Type} (R : Registry σ) (ctx : ImportContext)
    (nextErr : Bool) (es : List Entry) (s : Session σ) (msg : String)
    (h : (uploadBlobsLoop R ctx nextErr s es).2 = Outcome.error msg) : nextErr = true := by
  induction es generalizing s with
  | nil =>
    simp only [uploadBlobsLoop] at h
    by_cases hn : nextErr = true
    · exact hn
    · simp [hn] at h
  | cons e es ih =>
    rw [uploadBlobsLoop_cons] at h
    cases hb : blobStep R ctx s e with
    | none => rw [hb] at h; simp at h
    | some s1 => rw [hb] at h; exact ih s1 h

/-- C13: the result of `uploadBlobs` (the calls made, the registry state and
how the pass ends) is the result against the registry that differs only in
that every `UploadBlob` reports success; an iteration whose upload fails goes
on with the following entries; and the pass returns an error only when the
archive cannot be opened or the tar stream is broken. -/
theorem C13_failed_upload_does_not_abort {σ : Type} (R : Registry σ) (ctx : ImportContext)
    (s : Session σ) (file : Archive) :
    uploadBlobs R ctx s file = uploadBlobs (uploadsSucceed R) ctx s file ∧
      (∀ (e : Entry) (es : List Entry) (s1 : Session σ), blobStep R ctx s e = some s1 →
        uploadBlobsLoop R ctx file.nextErr s (e :: es)
          = uploadBlobsLoop R ctx file.nextErr s1 es) ∧
      (∀ msg, (uploadBlobs R ctx s file).2 = Outcome.error msg →
        file.openErr = true ∨ file.nextErr = true) := by
  refine ⟨?_, ?_, ?_⟩
  · unfold uploadBlobs
    split
    · rfl
    · exact (uploadBlobsLoop_uploadsSucceed R ctx _ _ s).symm
  · intro e es s1 h
    rw [uploadBlobsLoop_cons, h]
  · intro msg h
    unfold uploadBlobs at h
    by_cases ho : file.openErr = true
    · exact Or.inl ho
    · simp only [ho, Bool.false_eq_true, if_false] at h
      exact Or.inr (uploadBlobsLoop_error R ctx _ _ s msg h)

/-- C13 at the archive of `repoA` against the registry that fails every upload:
both blobs are tried and the pass returns nil. -/
theorem C13_failed_upload_does_not_abort_witness :
    uploadBlobsLoop failingRegistry smallContext false ⟨(), []⟩
        (⟨"blob/sha256:aaa", [1, 2, 3], false⟩ :: [⟨"blob/sha256:bbb", [4, 5], false⟩])
      = uploadBlobsLoop failingRegistry smallContext false
          ⟨(), [Event.HasBlob "repoA" "sha256:aaa",
                Event.UploadBlob "repoA" "sha256:aaa" [1, 2, 3] 3]⟩
          [⟨"blob/sha256:bbb", [4, 5], false⟩] :=
  (C13_failed_upload_does_not_abort failingRegistry smallContext ⟨(), []⟩ blobsArchive).2.1
    ⟨"blob/sha256:aaa", [1, 2, 3], false⟩ [⟨"blob/sha256:bbb", [4, 5], false⟩] _ rfl

/-! ## C16: blob calls come before manifest submissions -/

/-- C16: the trace of `DoImport` is a list of `HasBlob` and `UploadBlob` calls
followed by a list of `PutManifest` calls, so no `PutManifest` call precedes a
blob call. -/
theorem C16_blob_calls_before_put_manifest {σ : Type} (J : JsonLib) (R : Registry σ) (s0 : σ)
    (file : Archive) :
    ∃ blobCalls putCalls, (DoImport J R s0 file).1.trace = blobCalls ++ putCalls ∧
      (∀ ev ∈ blobCalls, isBlobCall ev = true) ∧ (∀ ev ∈ putCalls, isPut ev = true) := by
  unfold DoImport
  cases hp : parseArchive J file with
  | error err => exact ⟨[], [], rfl, by simp, by simp⟩
  | ok ctx =>
    simp only
    obtain ⟨added, hadd, hblob⟩ := uploadBlobs_blob_calls R ctx ⟨s0, []⟩ file
    simp only [List.nil_append] at hadd
    cases hu : uploadBlobs R ctx ⟨s0, []⟩ file with
    | mk s1 out =>
      rw [hu] at hadd
      simp only at hadd
      cases out with
      | error msg => exact ⟨added, [], by simp [hadd], hblob, by simp⟩
      | panic msg => exact ⟨added, [], by simp [hadd], hblob, by simp⟩
      | ok =>
        simp only [uploadManifests]
        refine ⟨added, (ctx.manifests.filter (submitted J)).map putCall, ?_, hblob, ?_⟩
        · rw [uploadManifestsLoop_trace, hadd]
        · intro ev hev
          obtain ⟨m, _, rfl⟩ := List.mem_map.mp hev
          rfl

/-! ## The blob index and the manifest list agree -/

theorem owners_addOwner (blobs : BlobMap) (key k : String) (item : ManifestFile) :
    owners (addOwner blobs key item) k = owners blobs k ++ (if k = key then [item] else []) := by
  by_cases hk : k = key
  · subst hk
    obtain ⟨b, hb, hm, _⟩ := addOwner_get_self blobs k item
    simp only [owners, hb, hm, if_true]
  · simp [owners, addOwner_get_of_ne _ _ _ _ hk, hk]

theorem owners_addOwners (keys : List String) (blobs : BlobMap) (k : String)
    (item : ManifestFile) :
    owners (addOwners blobs keys item) k = owners blobs k ++ List.replicate (keys.count k) item := by
  induction keys generalizing blobs with
  | nil => simp [addOwners]
  | cons key keys ih =>
    have step : addOwners blobs (key :: keys) item = addOwners (addOwner blobs key item) keys item :=
      rfl
    rw [step, ih, owners_addOwner, List.count_cons]
    by_cases hk : k = key
    · subst hk
      simp [List.replicate_succ']
      rw [← List.replicate_succ, List.replicate_succ']
    · have hk2 : ¬ (key = k) := fun h => hk h.symm
      simp [hk, hk2]

/-- The blob block changes no record's owning manifests. -/
theorem owners_put_size (blobs : BlobMap) (key k : String) (n : Nat) :
    owners (blobs.put key
        { (match blobs.get key with
            | none => ({ uploaded := false, manifests := [], size := 0 } : BlobItem)
            | some b => b) with size := n }) k = owners blobs k := by
  by_cases hk : k = key
  · subst hk
    simp only [owners, BlobMap.get_put_self]
    cases blobs.get k <;> rfl
  · simp [owners, BlobMap.get_put_of_ne _ _ _ _ hk]

/-- A successful `readManifest` on a fresh record appends the record to the
owning manifests of each digest, once per reference. -/
theorem readManifest_owners {J : JsonLib} {ctx ctx1 : ImportContext} {item item1 : ManifestFile}
    (h1 : item.manifestV1 = none) (h2 : item.manifestV2 = none)
    (h : readManifest J ctx item = Except.ok (ctx1, item1)) (k : String) :
    owners ctx1.blobs k = owners ctx.blobs k ++ List.replicate ((refs item1).count k) item1 := by
  unfold readManifest at h
  cases hp : J.parse item.data with
  | none => rw [hp] at h; simp at h
  | some v =>
    rw [hp] at h
    simp only at h
    cases hv : decodeVersioned v with
    | error e => rw [hv] at h; simp at h
    | ok ver =>
      rw [hv] at h
      simp only at h
      split at h
      · cases hs : J.schema1 v with
        | error e => rw [hs] at h; simp at h
        | ok m1 =>
          rw [hs] at h
          simp only [Except.ok.injEq, Prod.mk.injEq] at h
          obtain ⟨hc, hi⟩ := h
          subst hc hi
          simp only [owners_addOwners, refs, h2, List.append_nil]
      · split at h
        · cases hs : J.schema2 v with
          | error e => rw [hs] at h; simp at h
          | ok m2 =>
            rw [hs] at h
            simp only [Except.ok.injEq, Prod.mk.injEq] at h
            obtain ⟨hc, hi⟩ := h
            subst hc hi
            simp only [owners_addOwners, refs, h1, List.nil_append]
        · simp only [Except.ok.injEq, Prod.mk.injEq] at h
          obtain ⟨hc, hi⟩ := h
          subst hc hi
          simp [refs, h1, h2]

theorem expectedOwners_append (ms : List ManifestFile) (m : ManifestFile) (k : String) :
    expectedOwners (ms ++ [m]) k = expectedOwners ms k ++ List.replicate ((refs m).count k) m := by
  simp [expectedOwners, List.flatMap_append]

/-- One iteration of the parse loop keeps the agreement of index and list. -/
theorem parseEntry_owners {J : JsonLib} {ctx ctx1 : ImportContext} {e : Entry}
    (hinv : ∀ k, owners ctx.blobs k = expectedOwners ctx.manifests k)
    (h : parseEntry J ctx e = Except.ok ctx1) (k : String) :
    owners ctx1.blobs k = expectedOwners ctx1.manifests k := by
  obtain ⟨st1, st2, st3, ht, hd, hbl, rfl⟩ := parseEntry_ok h
  have inv1 : ∀ k, owners st1.1.blobs k = expectedOwners st1.1.manifests k := by
    intro k
    rcases tagBlock_ok ht with ⟨_, rfl⟩ | ⟨_, _, c1, i1, _, _, hr, rfl⟩
    · exact hinv k
    · simp only
      rw [expectedOwners_append, (readManifest_ok hr).1, readManifest_owners rfl rfl hr k, hinv k]
  have inv2 : ∀ k, owners st2.1.blobs k = expectedOwners st2.1.manifests k := by
    intro k
    rcases digestBlock_ok hd with ⟨_, rfl⟩ | ⟨_, _, _, c2, i2, _, _, hr, rfl⟩
    · exact inv1 k
    · simp only
      rw [expectedOwners_append, (readManifest_ok hr).1, readManifest_owners rfl rfl hr k, inv1 k]
  unfold blobBlock at hbl
  cases hm : regxpBlobFile e.name with
  | none =>
    rw [hm] at hbl
    simp only [Except.ok.injEq] at hbl
    subst hbl
    exact inv2 k
  | some groups =>
    rw [hm] at hbl
    simp only [IoConsumeAll] at hbl
    by_cases hf : st2.2.fault = true
    · simp [hf] at hbl
    · simp only [hf, Bool.false_eq_true, if_false, Except.ok.injEq] at hbl
      subst hbl
      simp only
      rw [owners_put_size]
      exact inv2 k

/-- The parse loop keeps the agreement of index and list. -/
theorem parseLoop_owners {J : JsonLib} (nextErr : Bool) (es : List Entry)
    (ctx ctx1 : ImportContext)
    (hinv : ∀ k, owners ctx.blobs k = expectedOwners ctx.manifests k)
    (h : parseLoop J nextErr ctx es = Except.ok ctx1) (k : String) :
    owners ctx1.blobs k = expectedOwners ctx1.manifests k := by
  induction es generalizing ctx with
  | nil =>
    simp only [parseLoop] at h
    split at h
    · simp at h
    · simp only [Except.ok.injEq] at h
      subst h
      exact hinv k
  | cons e es ih =>
    simp only [parseLoop] at h
    cases he : parseEntry J ctx e with
    | error err => rw [he] at h; simp at h
    | ok c =>
      rw [he] at h
      exact ih c (fun k => parseEntry_owners hinv he k) h

/-- After a successful `parseArchive` the owning manifests of every digest are
the records of the manifest list that reference it, in list order. -/
theorem parseArchive_owners {J : JsonLib} {file : Archive} {ctx : ImportContext}
    (h : parseArchive J file = Except.ok ctx) (k : String) :
    owners ctx.blobs k = expectedOwners ctx.manifests k := by
  unfold parseArchive at h
  split at h
  · simp at h
  · exact parseLoop_owners _ _ ⟨[], []⟩ _ (fun _ => rfl) h k

/-! ## C15: index and list after the parse -/

/-- C15: after a successful `parseArchive`, for every record of the manifest
list and every digest it references the index holds a record for the digest
whose owning manifests contain that record; and every manifest among the owning
manifests of a record of the index is in the manifest list and references the
record's digest. -/
theorem C15_index_and_list_agree (J : JsonLib) (file : Archive) (ctx : ImportContext)
    (h : parseArchive J file = Except.ok ctx) :
    (∀ m ∈ ctx.manifests, ∀ d ∈ refs m, ∃ b, ctx.blobs.get d = some b ∧ m ∈ b.manifests) ∧
      (∀ d b, ctx.blobs.get d = some b → ∀ m ∈ b.manifests, m ∈ ctx.manifests ∧ d ∈ refs m) := by
  constructor
  · intro m hm d hd
    have hmem : m ∈ owners ctx.blobs d := by
      rw [parseArchive_owners h d]
      simp only [expectedOwners, List.mem_flatMap, List.mem_replicate]
      exact ⟨m, hm, fun hz => (List.count_eq_zero.mp hz) hd, rfl⟩
    unfold owners at hmem
    cases hg : ctx.blobs.get d with
    | none => rw [hg] at hmem; simp at hmem
    | some b => rw [hg] at hmem; exact ⟨b, rfl, hmem⟩
  · intro d b hg m hm
    have hmem : m ∈ expectedOwners ctx.manifests d := by
      rw [← parseArchive_owners h d]
      simp only [owners, hg]
      exact hm
    simp only [expectedOwners, List.mem_flatMap, List.mem_replicate] at hmem
    obtain ⟨a, ha, hcount, rfl⟩ := hmem
    exact ⟨ha, by
      by_contra hn
      exact hcount (List.count_eq_zero.mpr hn)⟩

/-- C15 at the sample archive. -/
theorem C15_index_and_list_agree_witness :
    (∀ m ∈ smallContext.manifests, ∀ d ∈ refs m,
        ∃ b, smallContext.blobs.get d = some b ∧ m ∈ b.manifests) ∧
      (∀ d b, smallContext.blobs.get d = some b →
        ∀ m ∈ b.manifests, m ∈ smallContext.manifests ∧ d ∈ refs m) :=
  C15_index_and_list_agree sampleJson smallArchive smallContext rfl

/-! ## C12: the repository a blob is uploaded to -/

/-- The calls of one iteration: none, or calls for the key of the entry's path
with the repository of the first owning manifest of that key's record. -/
theorem blobStep_calls {σ : Type} (R : Registry σ) (ctx : ImportContext) (s s1 : Session σ)
    (e : Entry) (h : blobStep R ctx s e = some s1) :
    s1.trace = s.trace ∨
      ∃ alg hex b mf rest, regxpBlobFile e.name = some (alg, hex) ∧
        ctx.blobs.get (alg ++ ":" ++ hex) = some b ∧ b.manifests = mf :: rest ∧
        (s1.trace = s.trace ++ [Event.HasBlob mf.repository (alg ++ ":" ++ hex)] ∨
          s1.trace = s.trace ++ [Event.HasBlob mf.repository (alg ++ ":" ++ hex),
            Event.UploadBlob mf.repository (alg ++ ":" ++ hex) e.data b.size]) := by
  unfold blobStep at h
  cases hm : regxpBlobFile e.name with
  | none => rw [hm] at h; simp only [Option.some.injEq] at h; subst h; exact Or.inl rfl
  | some groups =>
    rw [hm] at h
    simp only at h
    cases hg : ctx.blobs.get (groups.1 ++ ":" ++ groups.2) with
    | none => rw [hg] at h; simp only [Option.some.injEq] at h; subst h; exact Or.inl rfl
    | some blob =>
      rw [hg] at h
      simp only at h
      cases hl : blob.manifests with
      | nil => rw [hl] at h; simp at h
      | cons manifest rest =>
        rw [hl] at h
        simp only at h
        refine Or.inr ⟨groups.1, groups.2, blob, manifest, rest, rfl, hg, hl, ?_⟩
        split at h
        · simp only [Option.some.injEq] at h
          subst h
          exact Or.inl rfl
        · simp only [Option.some.injEq] at h
          subst h
          exact Or.inr (by simp)

/-- The first record of the list that references `k` is the first of the
owning manifests the list gives `k`. -/
theorem expectedOwners_first (pre post : List ManifestFile) (m : ManifestFile) (k : String)
    (hfirst : ∀ x ∈ pre, k ∉ refs x) (href : k ∈ refs m) :
    ∃ rest, expectedOwners (pre ++ m :: post) k = m :: rest := by
  have hpre : expectedOwners pre k = [] := by
    simp only [expectedOwners, List.flatMap_eq_nil_iff]
    intro x hx
    rw [List.count_eq_zero.mpr (hfirst x hx)]
    rfl
  obtain ⟨n, hn⟩ : ∃ n, (refs m).count k = n + 1 :=
    Nat.exists_eq_succ_of_ne_zero (fun hz => (List.count_eq_zero.mp hz) href)
  refine ⟨List.replicate n m ++ expectedOwners post k, ?_⟩
  have happ : expectedOwners (pre ++ m :: post) k
      = expectedOwners pre k ++ (List.replicate ((refs m).count k) m ++ expectedOwners post k) := by
    simp [expectedOwners, List.flatMap_append]
  rw [happ, hpre, hn, List.replicate_succ]
  rfl

/-- C12: after a successful `parseArchive`, let `m` be the first record of the
manifest list (which is in archive order) that references the digest `k`. The
record of `k` has `m` as its first owning manifest; the iteration of
`uploadBlobs` on a blob entry with the digest `k` calls `HasBlob`, and
`UploadBlob` if it calls it, with the repository of `m`; and in the whole pass
every call for the digest `k` carries the repository of `m`, whatever later
manifests reference `k`. -/
theorem C12_first_owner_repository (J : JsonLib) (file : Archive) (ctx : ImportContext)
    (pre post : List ManifestFile) (m : ManifestFile) (k : String)
    (hparse : parseArchive J file = Except.ok ctx) (hlist : ctx.manifests = pre ++ m :: post)
    (hfirst : ∀ x ∈ pre, k ∉ refs x) (href : k ∈ refs m) :
    (∃ b rest, ctx.blobs.get k = some b ∧ b.manifests = m :: rest) ∧
      (∀ (σ : Type) (R : Registry σ) (nextErr : Bool) (s : Session σ) (e : Entry)
          (es : List Entry) (alg hex : String),
        regxpBlobFile e.name = some (alg, hex) → alg ++ ":" ++ hex = k →
        ∃ s1, uploadBlobsLoop R ctx nextErr s (e :: es) = uploadBlobsLoop R ctx nextErr s1 es ∧
          (s1.trace = s.trace ++ [Event.HasBlob m.repository k] ∨
            ∃ n, s1.trace = s.trace ++ [Event.HasBlob m.repository k,
              Event.UploadBlob m.repository k e.data n])) ∧
      (∀ (σ : Type) (R : Registry σ) (s : Session σ),
        ∃ added, (uploadBlobs R ctx s file).1.trace = s.trace ++ added ∧
          ∀ ev ∈ added, ∀ r, (ev = Event.HasBlob r k → r = m.repository) ∧
            (∀ c n, ev = Event.UploadBlob r k c n → r = m.repository)) := by
  have hrec : ∃ b rest, ctx.blobs.get k = some b ∧ b.manifests = m :: rest := by
    obtain ⟨rest, hrest⟩ := expectedOwners_first pre post m k hfirst href
    have hown := parseArchive_owners hparse k
    rw [hlist, hrest] at hown
    unfold owners at hown
    cases hg : ctx.blobs.get k with
    | none => rw [hg] at hown; simp at hown
    | some b => rw [hg] at hown; exact ⟨b, rest, rfl, hown⟩
  obtain ⟨b, rest, hb, hbm⟩ := hrec
  refine ⟨⟨b, rest, hb, hbm⟩, ?_, ?_⟩
  · intro σ R nextErr s e es alg hex hm hk
    subst hk
    rw [uploadBlobsLoop_cons]
    by_cases hhas : (R.HasBlob s.state m.repository (alg ++ ":" ++ hex)).1 = true
    · have hstep : blobStep R ctx s e
          = some ⟨(R.HasBlob s.state m.repository (alg ++ ":" ++ hex)).2,
              s.trace ++ [Event.HasBlob m.repository (alg ++ ":" ++ hex)]⟩ := by
        unfold blobStep
        rw [hm]
        simp only
        rw [hb]
        simp only
        rw [hbm]
        simp only [hhas, if_true]
      rw [hstep]
      exact ⟨_, rfl, Or.inl rfl⟩
    · have hstep : blobStep R ctx s e
          = some ⟨(R.UploadBlob (R.HasBlob s.state m.repository (alg ++ ":" ++ hex)).2
                m.repository (alg ++ ":" ++ hex) e.data b.size).2,
              (s.trace ++ [Event.HasBlob m.repository (alg ++ ":" ++ hex)]) ++
                [Event.UploadBlob m.repository (alg ++ ":" ++ hex) e.data b.size]⟩ := by
        unfold blobStep
        rw [hm]
        simp only
        rw [hb]
        simp only
        rw [hbm]
        simp [hhas]
      rw [hstep]
      exact ⟨_, rfl, Or.inr ⟨b.size, by simp⟩⟩
  · intro σ R s
    unfold uploadBlobs
    split
    · exact ⟨[], by simp, by simp⟩
    · apply uploadBlobsLoop_added R ctx file.nextErr
        (fun ev => ∀ r, (ev = Event.HasBlob r k → r = m.repository) ∧
          (∀ c n, ev = Event.UploadBlob r k c n → r = m.repository))
      intro s s1 e h
      rcases blobStep_calls R ctx s s1 e h with h1 | ⟨alg, hex, b2, mf, rest2, _, hg, hl, h1⟩
      · exact ⟨[], by simp [h1], by simp⟩
      · have hhead : alg ++ ":" ++ hex = k → mf.repository = m.repository := by
          intro hk
          rw [hk, hb] at hg
          simp only [Option.some.injEq] at hg
          subst hg
          rw [hbm] at hl
          simp only [List.cons.injEq] at hl
          rw [hl.1]
        rcases h1 with h1 | h1
        · refine ⟨_, h1, ?_⟩
          intro ev hev r
          simp only [List.mem_singleton] at hev
          subst hev
          refine ⟨fun heq => ?_, fun c n heq => by simp at heq⟩
          simp only [Event.HasBlob.injEq] at heq
          rw [← heq.1]
          exact hhead heq.2
        · refine ⟨_, h1, ?_⟩
          intro ev hev r
          simp only [List.mem_cons, List.mem_singleton, List.not_mem_nil, or_false] at hev
          rcases hev with hev | hev
          · subst hev
            refine ⟨fun heq => ?_, fun c n heq => by simp at heq⟩
            simp only [Event.HasBlob.injEq] at heq
            rw [← heq.1]
            exact hhead heq.2
          · subst hev
            refine ⟨fun heq => by simp at heq, fun c n heq => ?_⟩
            simp only [Event.UploadBlob.injEq] at heq
            rw [← heq.1]
            exact hhead heq.2.1

/-- C12 at an archive in which `repoA` and then `repoB` reference `sha256:aaa`:
the blob goes to `repoA`. -/
theorem C12_first_owner_repository_witness :
    (∃ b rest, sharedContext.blobs.get "sha256:aaa" = some b ∧
        b.manifests = smallTagRecord :: rest) ∧
      (uploadBlobs emptyRegistry sharedContext ⟨(), []⟩ sharedArchive).1.trace
        = [Event.HasBlob "repoA" "sha256:aaa",
           Event.UploadBlob "repoA" "sha256:aaa" [1, 2, 3] 3] := by
  have h := C12_first_owner_repository sampleJson sharedArchive sharedContext [] [sharedRecordB]
    smallTagRecord "sha256:aaa" rfl rfl (by simp) (by decide)
  exact ⟨h.1, rfl⟩

/-! ## C17: scenario A -/

/-- The parse of scenario A, for a JSON library that decodes the manifest
payload as a schema 2 manifest with the layer `sha256:aaa` and the config
`sha256:bbb`. -/
theorem parseArchive_scenarioA (J : JsonLib) (manifest aaa bbb : Bytes) (v : JVal)
    (ver : Versioned) (hparse : J.parse manifest = some v)
    (hver : decodeVersioned v = Except.ok ver) (htwo : ver.SchemaVersion = 2)
    (hschema : J.schema2 v = Except.ok ⟨["sha256:aaa"], "sha256:bbb"⟩)
    (ha : aaa.length = 100) (hb : bbb.length = 50) :
    parseArchive J (scenarioA manifest aaa bbb) = Except.ok (scenarioContext manifest) := by
  have hne : ¬ ((2 : Int) = 1) := by decide
  have hread : readManifest J ⟨[], []⟩
      { repository := "repoA", name := "latest", digestType := "", digestValue := "",
        tag := "latest", data := manifest, manifestV1 := none, manifestV2 := none, addr := 0 }
      = Except.ok (⟨[], [("sha256:aaa", ⟨false, [scenarioRecord manifest], 0⟩),
                         ("sha256:bbb", ⟨false, [scenarioRecord manifest], 0⟩)]⟩,
          scenarioRecord manifest) := by
    simp only [readManifest, hparse, hver, htwo, hne, if_true, if_false, hschema]
    rfl
  have h1 : parseEntry J ⟨[], []⟩ ⟨"repoA/manifests/latest", manifest, false⟩
      = Except.ok ⟨[scenarioRecord manifest],
          [("sha256:aaa", ⟨false, [scenarioRecord manifest], 0⟩),
           ("sha256:bbb", ⟨false, [scenarioRecord manifest], 0⟩)]⟩ := by
    have ht : regexpTagManifestFile "repoA/manifests/latest" = some ("repoA", "latest") := by
      decide
    have hd : regexpManifestFile "repoA/manifests/latest" = none := by decide
    have hbl : regxpBlobFile "repoA/manifests/latest" = none := by decide
    simp only [parseEntry, tagBlock, ht, Reader.readAll, Bool.false_eq_true, if_false,
      List.length_nil]
    rw [hread]
    simp only [digestBlock, hd, blobBlock, hbl, List.nil_append]
  have h2 : parseEntry J ⟨[scenarioRecord manifest],
          [("sha256:aaa", ⟨false, [scenarioRecord manifest], 0⟩),
           ("sha256:bbb", ⟨false, [scenarioRecord manifest], 0⟩)]⟩ ⟨"blob/sha256:aaa", aaa, false⟩
      = Except.ok ⟨[scenarioRecord manifest],
          [("sha256:aaa", ⟨false, [scenarioRecord manifest], 100⟩),
           ("sha256:bbb", ⟨false, [scenarioRecord manifest], 0⟩)]⟩ := by
    have ht : regexpTagManifestFile "blob/sha256:aaa" = none := by decide
    have hd : regexpManifestFile "blob/sha256:aaa" = none := by decide
    have hbl : regxpBlobFile "blob/sha256:aaa" = some ("sha256", "aaa") := by decide
    simp only [parseEntry, tagBlock, ht, digestBlock, hd, blobBlock, hbl, IoConsumeAll,
      Bool.false_eq_true, if_false, ha]
    rfl
  have h3 : parseEntry J ⟨[scenarioRecord manifest],
          [("sha256:aaa", ⟨false, [scenarioRecord manifest], 100⟩),
           ("sha256:bbb", ⟨false, [scenarioRecord manifest], 0⟩)]⟩ ⟨"blob/sha256:bbb", bbb, false⟩
      = Except.ok (scenarioContext manifest) := by
    have ht : regexpTagManifestFile "blob/sha256:bbb" = none := by decide
    have hd : regexpManifestFile "blob/sha256:bbb" = none := by decide
    have hbl : regxpBlobFile "blob/sha256:bbb" = some ("sha256", "bbb") := by decide
    simp only [parseEntry, tagBlock, ht, digestBlock, hd, blobBlock, hbl, IoConsumeAll,
      Bool.false_eq_true, if_false, hb]
    rfl
  simp only [parseArchive, scenarioA, Bool.false_eq_true, if_false, parseLoop, h1, h2, h3]

/-- The blob pass of scenario A against a registry that reports every blob
absent: an existence check and an upload per blob, to `repoA`. -/
theorem uploadBlobs_scenarioA {σ : Type} (R : Registry σ) (s0 : σ) (manifest aaa bbb : Bytes)
    (hreg : ∀ st r d, (R.HasBlob st r d).1 = false) :
    (uploadBlobs R (scenarioContext manifest) ⟨s0, []⟩ (scenarioA manifest aaa bbb)).1.trace
        = [Event.HasBlob "repoA" "sha256:aaa", Event.UploadBlob "repoA" "sha256:aaa" aaa 100,
           Event.HasBlob "repoA" "sha256:bbb", Event.UploadBlob "repoA" "sha256:bbb" bbb 50] ∧
      (uploadBlobs R (scenarioContext manifest) ⟨s0, []⟩ (scenarioA manifest aaa bbb)).2
        = Outcome.ok := by
  have hm1 : regxpBlobFile "repoA/manifests/latest" = none := by decide
  have hm2 : regxpBlobFile "blob/sha256:aaa" = some ("sha256", "aaa") := by decide
  have hm3 : regxpBlobFile "blob/sha256:bbb" = some ("sha256", "bbb") := by decide
  have hg2 : (scenarioContext manifest).blobs.get "sha256:aaa"
      = some ⟨false, [scenarioRecord manifest], 100⟩ := rfl
  have hg3 : (scenarioContext manifest).blobs.get "sha256:bbb"
      = some ⟨false, [scenarioRecord manifest], 50⟩ := rfl
  have hk2 : "sha256" ++ ":" ++ "aaa" = "sha256:aaa" := by decide
  have hk3 : "sha256" ++ ":" ++ "bbb" = "sha256:bbb" := by decide
  have hrepo : (scenarioRecord manifest).repository = "repoA" := rfl
  have step1 : ∀ s : Session σ,
      blobStep R (scenarioContext manifest) s ⟨"repoA/manifests/latest", manifest, false⟩
        = some s := by
    intro s
    simp only [blobStep, hm1]
  have step2 : ∀ s : Session σ,
      blobStep R (scenarioContext manifest) s ⟨"blob/sha256:aaa", aaa, false⟩
        = some ⟨(R.UploadBlob (R.HasBlob s.state "repoA" "sha256:aaa").2 "repoA" "sha256:aaa"
              aaa 100).2,
            (s.trace ++ [Event.HasBlob "repoA" "sha256:aaa"]) ++
              [Event.UploadBlob "repoA" "sha256:aaa" aaa 100]⟩ := by
    intro s
    simp only [blobStep, hm2, hk2, hg2, hreg, Bool.false_eq_true, if_false, hrepo]
  have step3 : ∀ s : Session σ,
      blobStep R (scenarioContext manifest) s ⟨"blob/sha256:bbb", bbb, false⟩
        = some ⟨(R.UploadBlob (R.HasBlob s.state "repoA" "sha256:bbb").2 "repoA" "sha256:bbb"
              bbb 50).2,
            (s.trace ++ [Event.HasBlob "repoA" "sha256:bbb"]) ++
              [Event.UploadBlob "repoA" "sha256:bbb" bbb 50]⟩ := by
    intro s
    simp only [blobStep, hm3, hk3, hg3, hreg, Bool.false_eq_true, if_false, hrepo]
  simp only [uploadBlobs, scenarioA, Bool.false_eq_true, if_false]
  rw [uploadBlobsLoop_cons, step1]
  simp only
  rw [uploadBlobsLoop_cons, step2]
  simp only
  rw [uploadBlobsLoop_cons, step3]
  simp [uploadBlobsLoop]

/-- C17: scenario A. For a JSON library that decodes the manifest payload as a
schema 2 manifest with the layer `sha256:aaa` and the config `sha256:bbb`, blob
payloads of 100 and 50 bytes, and a registry that reports every blob absent:
`parseArchive` yields one manifest and two blob records with the sizes 100 and
50; `uploadBlobs` issues two `HasBlob` and two `UploadBlob` calls, all for
`repoA`; `uploadManifests` issues the one call `PutManifest repoA latest`; and
`DoImport` makes these five calls in this order and completes. -/
theorem C17_scenario_A {σ : Type} (J : JsonLib) (R : Registry σ) (s0 : σ)
    (manifest aaa bbb : Bytes) (v : JVal) (ver : Versioned)
    (hparse : J.parse manifest = some v) (hver : decodeVersioned v = Except.ok ver)
    (htwo : ver.SchemaVersion = 2)
    (hschema : J.schema2 v = Except.ok ⟨["sha256:aaa"], "sha256:bbb"⟩)
    (hre : J.deserialize manifest = Except.ok ())
    (ha : aaa.length = 100) (hb : bbb.length = 50)
    (hreg : ∀ st r d, (R.HasBlob st r d).1 = false) :
    parseArchive J (scenarioA manifest aaa bbb) = Except.ok (scenarioContext manifest) ∧
      (scenarioContext manifest).manifests.length = 1 ∧
      (scenarioContext manifest).blobs.map (fun kv => (kv.1, kv.2.size))
        = [("sha256:aaa", 100), ("sha256:bbb", 50)] ∧
      (uploadBlobs R (scenarioContext manifest) ⟨s0, []⟩ (scenarioA manifest aaa bbb)).1.trace
        = [Event.HasBlob "repoA" "sha256:aaa", Event.UploadBlob "repoA" "sha256:aaa" aaa 100,
           Event.HasBlob "repoA" "sha256:bbb", Event.UploadBlob "repoA" "sha256:bbb" bbb 50] ∧
      (∀ s : Session σ,
        (uploadManifests J R (scenarioContext manifest) s).1.trace
          = s.trace ++ [Event.PutManifest "repoA" "latest" manifest]) ∧
      (DoImport J R s0 (scenarioA manifest aaa bbb)).1.trace
        = [Event.HasBlob "repoA" "sha256:aaa", Event.UploadBlob "repoA" "sha256:aaa" aaa 100,
           Event.HasBlob "repoA" "sha256:bbb", Event.UploadBlob "repoA" "sha256:bbb" bbb 50,
           Event.PutManifest "repoA" "latest" manifest] ∧
      (DoImport J R s0 (scenarioA manifest aaa bbb)).2 = Exit.completed := by
  have hp := parseArchive_scenarioA J manifest aaa bbb v ver hparse hver htwo hschema ha hb
  obtain ⟨hu1, hu2⟩ := uploadBlobs_scenarioA R s0 manifest aaa bbb hreg
  have hput : ∀ s : Session σ,
      (uploadManifests J R (scenarioContext manifest) s).1.trace
        = s.trace ++ [Event.PutManifest "repoA" "latest" manifest] := by
    intro s
    simp only [uploadManifests, uploadManifestsLoop_trace]
    simp [scenarioContext, scenarioRecord, submitted, hre, putCall]
  refine ⟨hp, rfl, rfl, hu1, hput, ?_, ?_⟩
  · simp only [DoImport, hp]
    cases hub : uploadBlobs R (scenarioContext manifest) ⟨s0, []⟩ (scenarioA manifest aaa bbb) with
    | mk s1 out =>
      rw [hub] at hu1 hu2
      simp only at hu1 hu2
      subst hu2
      have hcalls := hput s1
      rw [hu1] at hcalls
      exact hcalls
  · simp only [DoImport, hp]
    cases hub : uploadBlobs R (scenarioContext manifest) ⟨s0, []⟩ (scenarioA manifest aaa bbb) with
    | mk s1 out =>
      rw [hub] at hu2
      simp only at hu2
      subst hu2
      rfl

/-- C17 at the sample manifest payload, blobs of 100 and 50 zero bytes and the
registry that holds no blob. -/
theorem C17_scenario_A_witness :
    parseArchive sampleJson (scenarioA payloadV2 (List.replicate 100 0) (List.replicate 50 0))
        = Except.ok (scenarioContext payloadV2) ∧
      (scenarioContext payloadV2).manifests.length = 1 ∧
      (scenarioContext payloadV2).blobs.map (fun kv => (kv.1, kv.2.size))
        = [("sha256:aaa", 100), ("sha256:bbb", 50)] ∧
      (uploadBlobs emptyRegistry (scenarioContext payloadV2) ⟨(), []⟩
          (scenarioA payloadV2 (List.replicate 100 0) (List.replicate 50 0))).1.trace
        = [Event.HasBlob "repoA" "sha256:aaa",
           Event.UploadBlob "repoA" "sha256:aaa" (List.replicate 100 0) 100,
           Event.HasBlob "repoA" "sha256:bbb",
           Event.UploadBlob "repoA" "sha256:bbb" (List.replicate 50 0) 50] ∧
      (∀ s : Session Unit,
        (uploadManifests sampleJson emptyRegistry (scenarioContext payloadV2) s).1.trace
          = s.trace ++ [Event.PutManifest "repoA" "latest" payloadV2]) ∧
      (DoImport sampleJson emptyRegistry ()
          (scenarioA payloadV2 (List.replicate 100 0) (List.replicate 50 0))).1.trace
        = [Event.HasBlob "repoA" "sha256:aaa",
           Event.UploadBlob "repoA" "sha256:aaa" (List.replicate 100 0) 100,
           Event.HasBlob "repoA" "sha256:bbb",
           Event.UploadBlob "repoA" "sha256:bbb" (List.replicate 50 0) 50,
           Event.PutManifest "repoA" "latest" payloadV2] ∧
      (DoImport sampleJson emptyRegistry ()
          (scenarioA payloadV2 (List.replicate 100 0) (List.replicate 50 0))).2
        = Exit.completed :=
  C17_scenario_A sampleJson emptyRegistry () payloadV2 (List.replicate 100 0)
    (List.replicate 50 0) valueV2
    ⟨2, "application/vnd.docker.distribution.manifest.v2+json"⟩ rfl rfl rfl rfl rfl
    (by simp) (by simp) (fun _ _ _ => rfl)

/-! ## C18: the groups of a match rebuild the path -/

/-- A string with characters is not the empty string. -/
theorem ne_empty_of_data_ne_nil {s : String} (h : s.data ≠ []) : s ≠ "" := by
  intro hs
  subst hs
  exact h rfl

/-- A string of `[^/:]` characters contains neither `/` nor `:`. -/
theorem seg_free {s : String} (h : ∀ c ∈ s.data, seg c = true) : '/' ∉ s.data ∧ ':' ∉ s.data :=
  ⟨fun hc => (seg_ne (h _ hc)).1 rfl, fun hc => (seg_ne (h _ hc)).2 rfl⟩

/-- C18: for a path that matches the tag pattern, repository, `/manifests/` and
tag rebuild the path; for a path that matches the digest pattern, repository,
`/manifests/`, algorithm, `:` and digest value rebuild it; for a path that
matches the blob pattern, `blob/` and the index key rebuild it; the tag or
algorithm is non-empty and contains neither `/` nor `:`. The record the parse
builds for a manifest entry carries the tag, or `algorithm:value`, as its name,
so repository, `/manifests/` and name rebuild the entry's path; the blob block
stores the size under the key that rebuilds the path. -/
theorem C18_fields_rebuild_path :
    (∀ n repo tag, regexpTagManifestFile n = some (repo, tag) →
        repo ++ "/manifests/" ++ tag = n ∧ tag ≠ "" ∧ '/' ∉ tag.data ∧ ':' ∉ tag.data) ∧
      (∀ n repo alg hex, regexpManifestFile n = some (repo, alg, hex) →
        repo ++ "/manifests/" ++ alg ++ ":" ++ hex = n ∧ alg ≠ "" ∧
          '/' ∉ alg.data ∧ ':' ∉ alg.data) ∧
      (∀ n alg hex, regxpBlobFile n = some (alg, hex) →
        "blob/" ++ (alg ++ ":" ++ hex) = n ∧ alg ≠ "" ∧ '/' ∉ alg.data ∧ ':' ∉ alg.data) ∧
      (∀ e m, recordOf e m →
        m.repository ++ "/manifests/" ++ m.name = e.name ∧
          ((regexpTagManifestFile e.name = some (m.repository, m.tag) ∧ m.name = m.tag) ∨
            (regexpManifestFile e.name = some (m.repository, m.digestType, m.digestValue) ∧
              m.name = m.digestType ++ ":" ++ m.digestValue))) ∧
      (∀ (J : JsonLib) (file : Archive) (ctx : ImportContext), J.parse [] = none →
        parseArchive J file = Except.ok ctx →
        ∀ m ∈ ctx.manifests, ∃ e ∈ file.entries,
          recordOf e m ∧ m.repository ++ "/manifests/" ++ m.name = e.name) ∧
      (∀ (J : JsonLib) (ctx ctx1 : ImportContext) (e : Entry) (alg hex : String),
        parseEntry J ctx e = Except.ok ctx1 → regxpBlobFile e.name = some (alg, hex) →
        (ctx1.blobs.get (alg ++ ":" ++ hex)).isSome = true ∧
          "blob/" ++ (alg ++ ":" ++ hex) = e.name) := by
  have hrec : ∀ e m, recordOf e m →
      m.repository ++ "/manifests/" ++ m.name = e.name ∧
        ((regexpTagManifestFile e.name = some (m.repository, m.tag) ∧ m.name = m.tag) ∨
          (regexpManifestFile e.name = some (m.repository, m.digestType, m.digestValue) ∧
            m.name = m.digestType ++ ":" ++ m.digestValue)) := by
    intro e m hr
    rcases hr.2 with ⟨ht, hname, _, _⟩ | ⟨hd, hname, _⟩
    · refine ⟨?_, Or.inl ⟨ht, hname⟩⟩
      rw [hname]
      exact (regexpTagManifestFile_some ht).1.symm
    · refine ⟨?_, Or.inr ⟨hd, hname⟩⟩
      rw [hname, (regexpManifestFile_some hd).1]
      apply String.ext
      simp [String.data_append]
  refine ⟨?_, ?_, ?_, hrec, ?_, ?_⟩
  · intro n repo tag h
    obtain ⟨hn, _, hne, _, hseg⟩ := regexpTagManifestFile_some h
    exact ⟨hn.symm, ne_empty_of_data_ne_nil hne, seg_free hseg⟩
  · intro n repo alg hex h
    obtain ⟨hn, _, hne, _, _, hseg, _⟩ := regexpManifestFile_some h
    exact ⟨hn.symm, ne_empty_of_data_ne_nil hne, seg_free hseg⟩
  · intro n alg hex h
    obtain ⟨hn, hne, _, hseg, _⟩ := regxpBlobFile_some h
    exact ⟨hn.symm, ne_empty_of_data_ne_nil hne, seg_free hseg⟩
  · intro J file ctx hnil hparse m hm
    obtain ⟨e, he, hr⟩ := forall₂_partner (parseArchive_records hnil hparse) m hm
    exact ⟨e, (List.mem_filter.mp he).1, hr, (hrec e m hr).1⟩
  · intro J ctx ctx1 e alg hex hentry hm
    obtain ⟨b, hb, _⟩ := parseEntry_blob hentry hm
    exact ⟨by rw [hb]; rfl, (regxpBlobFile_some hm).1.symm⟩

/-- C18 at the paths `repoA/manifests/latest`, `repoA/manifests/sha256:ddd` and
`blob/sha256:aaa`, and at the records of the sample archive. -/
theorem C18_fields_rebuild_path_witness :
    ("repoA" ++ "/manifests/" ++ "latest" = "repoA/manifests/latest" ∧ "latest" ≠ "" ∧
        '/' ∉ "latest".data ∧ ':' ∉ "latest".data) ∧
      ("repoA" ++ "/manifests/" ++ "sha256" ++ ":" ++ "ddd" = "repoA/manifests/sha256:ddd" ∧
        "sha256" ≠ "" ∧ '/' ∉ "sha256".data ∧ ':' ∉ "sha256".data) ∧
      ("blob/" ++ ("sha256" ++ ":" ++ "aaa") = "blob/sha256:aaa" ∧ "sha256" ≠ "" ∧
        '/' ∉ "sha256".data ∧ ':' ∉ "sha256".data) ∧
      (∀ m ∈ smallContext.manifests, ∃ e ∈ smallArchive.entries,
        recordOf e m ∧ m.repository ++ "/manifests/" ++ m.name = e.name) :=
  ⟨C18_fields_rebuild_path.1 "repoA/manifests/latest" "repoA" "latest" (by decide),
   C18_fields_rebuild_path.2.1 "repoA/manifests/sha256:ddd" "repoA" "sha256" "ddd" (by decide),
   C18_fields_rebuild_path.2.2.1 "blob/sha256:aaa" "sha256" "aaa" (by decide),
   C18_fields_rebuild_path.2.2.2.2.1 sampleJson smallArchive smallContext rfl rfl⟩

end Importer
